import Mathlib

/-!
Verification development for the fortune-postgres adapter.

The adapter (lib/index.js together with its helpers module) builds
parameterized PostgreSQL statements from schema-driven find / create /
update / delete descriptions, and converts records between the
application value model and the wire representation.  This file gives a
shallow embedding of the statement-building and value-codec logic and
proves (or refutes) the specification claims about it.

Modelling conventions:
* JavaScript scalar values are `JSScalar`; a field value is a `JSVal`
  (a scalar or an array of scalars, matching the schema's isArray flag).
* JS numbers are modelled as rationals (`Rat`); only identity of the
  value matters to the embedded code (no arithmetic is performed on
  them), plus integrality for the helper cast rule.
* Node buffers are byte lists (`List Nat`, each element < 256).
* Statement-building state (the shared parameter counter `index`, the
  accumulated `parameters` list and the accumulated clause list) is
  passed explicitly as `SqlState`.
* JavaScript runtime failures (ReferenceError / TypeError) are modelled
  with `Except JSError`.
-/

set_option maxHeartbeats 1000000

/-- A JavaScript scalar value as used by the adapter. -/
inductive JSScalar where
  | undef
  | nul
  | boolean (b : Bool)
  | num (q : Rat)
  | str (s : String)
  | buf (bytes : List Nat)
deriving DecidableEq, Repr

/-- A field value: a scalar or an array of scalars. -/
inductive JSVal where
  | scalar (s : JSScalar)
  | arr (elems : List JSScalar)
deriving DecidableEq, Repr

/-- A JavaScript runtime error raised by the embedded code. -/
inductive JSError where
  | referenceError (msg : String)
  | typeError (msg : String)
deriving DecidableEq, Repr

/-- Buffer.isBuffer for scalars. -/
def isBufferS : JSScalar → Bool
  | .buf _ => true
  | _ => false

/-- Lexicographic comparison of character lists, as the JS default sort
comparator orders strings (by code units; the values coincide for the
character sets involved here). -/
def charListLe : List Char → List Char → Bool
  | [], _ => true
  | _ :: _, [] => false
  | a :: as, b :: bs =>
    if a.toNat < b.toNat then true
    else if b.toNat < a.toNat then false
    else charListLe as bs

/-- The JS default string comparison used by `Array.prototype.sort`. -/
def jsStrLe (a b : String) : Bool := charListLe a.toList b.toList

/-- Lowercase hex digit characters, as produced by Node's
`buffer.toString('hex')` (0-9 then a-f). -/
def hexDigitChar (n : Nat) : Char :=
  if n < 10 then Char.ofNat (48 + n) else Char.ofNat (87 + n)

/-- A byte rendered as two lowercase hex characters (high nibble first). -/
def byteToHexChars (b : Nat) : List Char :=
  [hexDigitChar (b / 16), hexDigitChar (b % 16)]

/-- The hex string of a byte list, as `buffer.toString('hex')` yields. -/
def bufferToHexString (bytes : List Nat) : String :=
  String.mk (bytes.flatMap byteToHexChars)

/-- inputValue from lib/helpers: PostgreSQL expects a special encoding
for buffers, so a buffer becomes the string `\x` followed by its hex
rendering; every other value passes through unchanged. -/
def inputValue : JSScalar → JSScalar
  | .buf bytes => .str ("\\x" ++ bufferToHexString bytes)
  | v => v

/-- Numeric value of a hex digit character, as `Buffer.from(s, 'hex')`
reads it (0-9, a-f, A-F). -/
def hexCharVal (c : Char) : Nat :=
  if 48 ≤ c.toNat ∧ c.toNat ≤ 57 then c.toNat - 48
  else if 97 ≤ c.toNat ∧ c.toNat ≤ 102 then c.toNat - 87
  else if 65 ≤ c.toNat ∧ c.toNat ≤ 70 then c.toNat - 55
  else 0

/-- Hex parsing of a character list two characters per byte, as
`Buffer.from(s, 'hex')` does for well-formed input. -/
def hexCharsToBytes : List Char → List Nat
  | c1 :: c2 :: rest => (hexCharVal c1 * 16 + hexCharVal c2) :: hexCharsToBytes rest
  | _ => []

/-- outputBuffer from lib/helpers: a value that is already a buffer is
returned unchanged; otherwise the value is a string whose first two
characters (the `\x` marker) are dropped (`value.slice(2)`) and the rest
is hex-decoded.  `none` models the TypeError raised when the value has
no `slice` method. -/
def outputBuffer : JSScalar → Option JSScalar
  | .buf bytes => some (.buf bytes)
  | .str s => some (.buf (hexCharsToBytes (s.toList.drop 2)))
  | _ => none

/-- A record object: field name to value, in property insertion order
(JavaScript object semantics; keys are unique). -/
abbrev RecObj := List (String × JSVal)

/-- The `field in record` test. -/
def keyIn (k : String) (r : RecObj) : Bool :=
  r.any (fun p => p.1 == k)

/-- Property read `record[field]`; `none` when the property is absent
(JS would yield undefined). -/
def recGet (k : String) (r : RecObj) : Option JSVal :=
  (r.find? (fun p => p.1 == k)).map (fun p => p.2)

/-- Property write `record[field] = v`: updates the property in place if
present, otherwise appends it (JS object insertion order). -/
def recSet (r : RecObj) (k : String) (v : JSVal) : RecObj :=
  if keyIn k r then r.map (fun p => if p.1 == k then (k, v) else p)
  else r ++ [(k, v)]

/-- A record-type schema: field name to isArray flag, in declaration
order (the primary key is not among the declared fields). -/
abbrev Schema := List (String × Bool)

/-- `fields[field][isArrayKey]` lookup; `none` when the field is not
declared in the record type. -/
def schemaLookup (schema : Schema) (f : String) : Option Bool :=
  (schema.find? (fun p => p.1 == f)).map (fun p => p.2)

/-- Encoding of one present field by inputRecord:
`record[field] = isArray ? record[field].map(inputValue) : inputValue(record[field])`.
Calling `.map` on a non-array value raises a TypeError. -/
def encodeFieldValue (isArr : Bool) (v : JSVal) : Except JSError JSVal :=
  if isArr then
    match v with
    | .arr es => .ok (.arr (es.map inputValue))
    | .scalar _ => .error (.typeError "record[field].map is not a function")
  else
    match v with
    | .scalar s => .ok (.scalar (inputValue s))
    | .arr es => .ok (.arr es)

/-- One iteration of inputRecord's field loop: an absent field is
defaulted (empty array or null); a present field is encoded through
inputValue and written back. -/
def inputRecordField (r : RecObj) (fp : String × Bool) : Except JSError RecObj :=
  if keyIn fp.1 r then
    match recGet fp.1 r with
    | some v => (encodeFieldValue fp.2 v).map (fun w => recSet r fp.1 w)
    | none => .ok r
  else .ok (recSet r fp.1 (if fp.2 then .arr [] else .scalar .nul))

/-- inputRecord from lib/helpers, acting on the record value: first the
primary key is generated and assigned when absent (when a generator is
configured; `genVal` is the value the configured generator returns),
then every declared field is defaulted (empty array or null) when
absent, or encoded through inputValue when present. -/
def inputRecordBody (schema : Schema) (pk : String) (genVal : Option JSVal)
    (rec : RecObj) : Except JSError RecObj :=
  let rec1 := if keyIn pk rec then rec
    else match genVal with
      | some g => recSet rec pk g
      | none => rec
  schema.foldlM inputRecordField rec1

/-- A heap of record objects: references are indices.  Used to state
that inputRecord mutates the caller's object rather than copying it. -/
abbrev Heap := Nat → RecObj

/-- Heap update at one reference. -/
def heapUpdate (h : Heap) (r : Nat) (v : RecObj) : Heap :=
  fun r2 => if r2 = r then v else h r2

/-- inputRecord as create invokes it: it mutates the record object the
caller passed (a heap update at the same reference) and returns that
same reference (`return record`). -/
def inputRecordH (schema : Schema) (pk : String) (genVal : Option JSVal)
    (h : Heap) (r : Nat) : Except JSError (Heap × Nat) :=
  (inputRecordBody schema pk genVal (h r)).map (fun rec2 => (heapUpdate h r rec2, r))

/-- The encoding pass of create
(`records = records.map(inputRecord.bind(this, type))`): each caller
record is encoded in place; the resulting list holds the same
references. -/
def createEncodeRefs (schema : Schema) (pk : String) (genVal : Option JSVal) :
    Heap → List Nat → Except JSError (Heap × List Nat)
  | h, [] => .ok (h, [])
  | h, r :: rs => do
    let hr ← inputRecordH schema pk genVal h r
    let hrs ← createEncodeRefs schema pk genVal hr.1 rs
    .ok (hrs.1, hr.2 :: hrs.2)

/-- A store error object as the pg driver reports it. -/
structure PGError where
  code : Option String
  sqlState : Option String
  message : String
deriving DecidableEq, Repr

/-- JavaScript `a || b` on the two optional string properties (an absent
property and the empty string are falsy). -/
def jsOrStr : Option String → Option String → Option String
  | some s, b => if s = "" then b else some s
  | none, b => b

/-- getCode from lib/helpers: `error.code || error.sqlState`. -/
def getCode (e : PGError) : Option String :=
  jsOrStr e.code e.sqlState

/-- Result of create's error branch. -/
inductive CreateFailure where
  | conflictError (msg : String)
  | storeError (e : PGError)
deriving DecidableEq, Repr

/-- create's error branch: SQL state 23505 (unique constraint violated)
becomes a domain ConflictError; anything else is rejected unchanged. -/
def createHandleError (e : PGError) : CreateFailure :=
  if getCode e = some "23505" then .conflictError "Unique constraint violated."
  else .storeError e

/-- update's error branch: SQL state 42703 (undefined column) resolves
the record's contribution as 0 rows affected; anything else is rejected
unchanged. -/
def updateHandleError (e : PGError) : Except PGError Nat :=
  if getCode e = some "42703" then .ok 0 else .error e

/-- Double-quoted identifier, the only text interpolated from names. -/
def qid (s : String) : String := "\"" ++ s ++ "\""

/-- Statement-building state: the shared parameter counter `index`, the
accumulated `parameters` list, and the accumulated clause fragments
(`where` in find, `set` in update). -/
structure SqlState where
  index : Nat
  parameters : List JSVal
  clauses : List String
deriving DecidableEq, Repr

/-- The `xs.map(() => { index++; return '$' + index })` pattern: `n`
placeholders numbered from `i + 1`, returning the advanced counter. -/
def counterPlaceholders : Nat → Nat → List String × Nat
  | 0, i => ([], i)
  | n + 1, i =>
    let rest := counterPlaceholders n (i + 1)
    (("$" ++ toString (i + 1)) :: rest.1, rest.2)

/-- find's local mapValue applied to each element of a list:
`index++; parameters.push(value); return '$' + index`. -/
def mapValueList : List JSScalar → SqlState → List String × SqlState
  | [], st => ([], st)
  | v :: rest, st =>
    let st1 : SqlState :=
      { index := st.index + 1, parameters := st.parameters ++ [.scalar v],
        clauses := st.clauses }
    let r := mapValueList rest st1
    (("$" ++ toString (st.index + 1)) :: r.1, r.2)

/-- find's local mapValueCast applied to each element:
like mapValue but the placeholder is suffixed `::bytea` when the value
is a buffer (this version, used by find's match loop, has no other
cast). -/
def mapValueCastList : List JSScalar → SqlState → List String × SqlState
  | [], st => ([], st)
  | v :: rest, st =>
    let st1 : SqlState :=
      { index := st.index + 1, parameters := st.parameters ++ [.scalar v],
        clauses := st.clauses }
    let r := mapValueCastList rest st1
    (("$" ++ toString (st.index + 1) ++ (if isBufferS v then "::bytea" else "")) :: r.1, r.2)

/-- The value coercion of the array-containment branch:
`if (!Array.isArray(value)) value = [ value ]`. -/
def matchElems : JSVal → List JSScalar
  | .arr es => es
  | .scalar s => [s]

/-- The `if (ids)` block of find: a primary-key membership clause with
one placeholder per id, the ids appended to the parameter list. -/
def applyIdsClause (pk : String) (ids : Option (List JSScalar)) (st : SqlState) : SqlState :=
  match ids with
  | none => st
  | some l =>
    let r := counterPlaceholders l.length st.index
    { index := r.2,
      parameters := st.parameters ++ l.map .scalar,
      clauses := st.clauses ++ [qid pk ++ " in (" ++ String.intercalate ", " r.1 ++ ")"] }

/-- One iteration of find's `for (let field in options.match)` loop.
A non-array field compiles a sequence value to an IN list via mapValue
and a scalar value to an equality placeholder; an array field compiles
to array containment via mapValueCast.  An undeclared field raises a
TypeError (`fields[field]` is undefined). -/
def matchStep (schema : Schema) (st : SqlState) (e : String × JSVal) :
    Except JSError SqlState :=
  match schemaLookup schema e.1 with
  | none => .error (.typeError "cannot read properties of undefined (isArray)")
  | some isArr =>
    if isArr then
      let r := mapValueCastList (matchElems e.2) st
      .ok { r.2 with clauses := r.2.clauses ++
        [qid e.1 ++ " @> array[" ++ String.intercalate ", " r.1 ++ "]"] }
    else
      match e.2 with
      | .arr es =>
        let r := mapValueList es st
        .ok { r.2 with clauses := r.2.clauses ++
          [qid e.1 ++ " in (" ++ String.intercalate ", " r.1 ++ ")"] }
      | .scalar s =>
        .ok { index := st.index + 1,
              parameters := st.parameters ++ [.scalar s],
              clauses := st.clauses ++ [qid e.1 ++ " = $" ++ toString (st.index + 1)] }

/-- One iteration of find's `for (let field in options.contains)` loop,
exactly as the source emits it: the counter is incremented and the
wildcard-wrapped value pushed, but the emitted fragment is
`"field" ilike <index>` — the template writes the bare counter with no
`$` prefix. -/
def containsStep (st : SqlState) (e : String × String) : SqlState :=
  { index := st.index + 1,
    parameters := st.parameters ++ [.scalar (.str ("%" ++ e.2 ++ "%"))],
    clauses := st.clauses ++ [qid e.1 ++ " ilike " ++ toString (st.index + 1)] }

/-- One iteration of find's `for (let field in options.exists)` loop:
null test for a non-array field, element-count test for an array
field; no parameter is bound. -/
def existsStep (schema : Schema) (st : SqlState) (e : String × Bool) :
    Except JSError SqlState :=
  match schemaLookup schema e.1 with
  | none => .error (.typeError "cannot read properties of undefined (isArray)")
  | some isArr =>
    if isArr then
      .ok { st with clauses := st.clauses ++
        ["coalesce(array_length(" ++ qid e.1 ++ ", 1), 0) " ++
          (if e.2 then "> 0" else "= 0")] }
    else
      .ok { st with clauses := st.clauses ++
        [qid e.1 ++ " " ++ (if e.2 then "is not null" else "is null")] }

/-- One iteration of find's `for (let field in options.range)` loop:
lower and upper bound each emitted when non-null; array fields compare
the element count. -/
def rangeStep (schema : Schema) (st : SqlState)
    (e : String × (Option JSScalar × Option JSScalar)) : Except JSError SqlState :=
  match schemaLookup schema e.1 with
  | none => .error (.typeError "cannot read properties of undefined (isArray)")
  | some isArr =>
    let lhs := if isArr then "coalesce(array_length(" ++ qid e.1 ++ ", 1), 0)"
      else qid e.1
    let st1 := match e.2.1 with
      | some v =>
        { index := st.index + 1, parameters := st.parameters ++ [.scalar v],
          clauses := st.clauses ++ [lhs ++ " >= $" ++ toString (st.index + 1)] }
      | none => st
    let st2 := match e.2.2 with
      | some v =>
        { index := st1.index + 1, parameters := st1.parameters ++ [.scalar v],
          clauses := st1.clauses ++ [lhs ++ " <= $" ++ toString (st1.index + 1)] }
      | none => st1
    .ok st2

/-- One entry of find's sort loop: array fields order by element count,
others by value; truthy means ascending. -/
def sortFragment (schema : Schema) (e : String × Bool) : Except JSError String :=
  match schemaLookup schema e.1 with
  | none => .error (.typeError "cannot read properties of undefined (isArray)")
  | some isArr =>
    .ok ((if isArr then "coalesce(array_length(" ++ qid e.1 ++ ", 1), 0) "
      else qid e.1 ++ " ") ++ (if e.2 then "asc" else "desc"))

/-- find's column projection: an empty options.fields selects `*`;
otherwise an all-truthy map is an inclusion list and anything else an
exclusion list over the declared fields, the primary key always
included. -/
def findColumns (schema : Schema) (pk : String) (fieldsProj : List (String × Bool)) : String :=
  let cols := fieldsProj.map (fun p => p.1)
  if cols.length = 0 then "*"
  else
    let names := if fieldsProj.all (fun p => p.2) then pk :: cols
      else pk :: ((schema.map (fun p => p.1)).filter (fun f => ! cols.contains f))
    String.intercalate ", " (names.map qid)

/-- The options argument of find. -/
structure FindOptions where
  ids : Option (List JSScalar) := none
  matchE : List (String × JSVal) := []
  containsE : List (String × String) := []
  existsE : List (String × Bool) := []
  rangeE : List (String × (Option JSScalar × Option JSScalar)) := []
  sortE : List (String × Bool) := []
  fieldsProj : List (String × Bool) := []
  limit : Nat := 0
  offset : Nat := 0

/-- The limit/offset slice of find, appended verbatim to the statement
text (`slice += 'limit ' + options.limit + ' '` and likewise offset);
0 models the falsy absent option. -/
def sliceText (limit offset : Nat) : String :=
  (if limit ≠ 0 then "limit " ++ toString limit ++ " " else "") ++
  (if offset ≠ 0 then "offset " ++ toString offset ++ " " else "")

/-- The find statement builder: select columns, the where clauses in
source order (ids, match, contains, exists, range), ordering, and the
pagination slice, with the bound parameter list accumulated through one
shared counter. -/
def buildFind (schema : Schema) (table pk : String) (o : FindOptions) :
    Except JSError (String × List JSVal) := do
  let st0 : SqlState := ⟨0, [], []⟩
  let st1 := applyIdsClause pk o.ids st0
  let st2 ← List.foldlM (matchStep schema) st1 o.matchE
  let st3 := List.foldl containsStep st2 o.containsE
  let st4 ← List.foldlM (existsStep schema) st3 o.existsE
  let st5 ← List.foldlM (rangeStep schema) st4 o.rangeE
  let whereS := if st5.clauses.isEmpty then ""
    else "where " ++ String.intercalate " and " st5.clauses
  let orderFrags ← o.sortE.mapM (sortFragment schema)
  let orderS := if orderFrags.isEmpty then ""
    else "order by " ++ String.intercalate ", " orderFrags
  let sel := "select " ++ findColumns schema pk o.fieldsProj ++ " from " ++ qid table
  .ok (sel ++ " " ++ whereS ++ " " ++ orderS ++ " " ++ sliceText o.limit o.offset,
    st5.parameters)

/-- The count statement paired with find
(`'select count(*) from ' + table + ' ' + where`, line 288-289): the
source builds the where fragment and parameter list once inside find
and uses them for both statements; this replays that same
deterministic construction without the ordering and pagination parts,
which the count statement omits. -/
def buildCount (schema : Schema) (table pk : String) (o : FindOptions) :
    Except JSError (String × List JSVal) := do
  let st1 := applyIdsClause pk o.ids ⟨0, [], []⟩
  let st2 ← List.foldlM (matchStep schema) st1 o.matchE
  let st3 := List.foldl containsStep st2 o.containsE
  let st4 ← List.foldlM (existsStep schema) st3 o.existsE
  let st5 ← List.foldlM (rangeStep schema) st4 o.rangeE
  let whereS := if st5.clauses.isEmpty then ""
    else "where " ++ String.intercalate " and " st5.clauses
  .ok ("select count(*) from " ++ qid table ++ " " ++ whereS, st5.parameters)

/-- What an adapter method does against the store: nothing (the no-op
early returns that call the superclass), or execute one statement with
a bound parameter list. -/
inductive AdapterAction where
  | noop
  | exec (stmt : String) (parameters : List JSVal)
deriving DecidableEq, Repr

/-- find including its no-op guard:
`if (ids && !ids.length) return super.find()`. -/
def findAction (schema : Schema) (table pk : String) (ids : Option (List JSScalar))
    (o : FindOptions) : Except JSError AdapterAction :=
  if ids = some [] then .ok .noop
  else (buildFind schema table pk { o with ids := ids }).map (fun r => .exec r.1 r.2)

/-- delete including its no-op guard: an explicitly empty id list calls
the superclass; an absent id list deletes all rows of the type. -/
def deleteAction (table pk : String) (ids : Option (List JSScalar)) : AdapterAction :=
  if ids = some [] then .noop
  else
    .exec ("delete from " ++ qid table ++
      (match ids with
       | some l => " where " ++ qid pk ++ " in (" ++
           String.intercalate ", " (counterPlaceholders l.length 0).1 ++ ")"
       | none => ""))
      (match ids with
       | some l => l.map .scalar
       | none => [])

/-- `record[field]` read for create's VALUES assembly (undefined when
the property is absent). -/
def recGetD (r : RecObj) (k : String) : JSVal :=
  (recGet k r).getD (.scalar .undef)

/-- create's VALUES assembly: for each record, the primary key value
(when every record carries one) then the ordered field values are
pushed, and one `(…)` group of consecutively numbered placeholders is
emitted — one placeholder per pushed value. -/
def createRowsAux (pk : String) (hasPK : Bool) (ordered : List String) :
    List RecObj → Nat → List JSVal → List String × Nat × List JSVal
  | [], i, ps => ([], i, ps)
  | r :: rest, i, ps =>
    let rowVals := (if hasPK then [recGetD r pk] else []) ++ ordered.map (recGetD r)
    let n := (if hasPK then 1 else 0) + ordered.length
    let cp := counterPlaceholders n i
    let frag := "(" ++ String.intercalate ", " cp.1 ++ ")"
    let rec2 := createRowsAux pk hasPK ordered rest cp.2 (ps ++ rowVals)
    (frag :: rec2.1, rec2.2.1, rec2.2.2)

/-- The create statement: columns are the primary key (when every
record carries one) followed by the declared fields in sorted order;
when some record lacks a primary key the key column is omitted and the
insert is wrapped to return the store-assigned keys
(`with inserted as (insert … returning pk) select id from inserted`). -/
def createStatement (table pk : String) (fieldNames : List String)
    (records : List RecObj) : String × List JSVal :=
  let hasPK := records.all (fun r => keyIn pk r)
  let ordered := List.insertionSort (fun a b : String => jsStrLe a b = true) fieldNames
  let cols := (if hasPK then [qid pk] else []) ++ ordered.map qid
  let rows := createRowsAux pk hasPK ordered records 0 []
  ((if hasPK then "" else "with inserted as (") ++
    "insert into " ++ qid table ++ " (" ++ String.intercalate ", " cols ++
    ") values " ++ String.intercalate ", " rows.1 ++
    (if hasPK then "" else " returning " ++ pk ++ ") select id from inserted"),
    rows.2.2)

/-- create including its no-op guard:
`if (!records.length) return super.create()`. -/
def createAction (table pk : String) (fieldNames : List String)
    (records : List RecObj) : AdapterAction :=
  if records.length = 0 then .noop
  else
    let r := createStatement table pk fieldNames records
    .exec r.1 r.2

/-- The write-back of store-assigned keys after an insert without
caller-supplied primary keys: the i-th returned key is written into the
i-th record (`result.rows.forEach((result, i) => records[i][pk] = …)`).
Defined for key lists no longer than the record list. -/
def writeBackKeys (pk : String) : List RecObj → List JSVal → List RecObj
  | rs, [] => rs
  | [], _ :: _ => []
  | r :: rs, k :: ks => recSet r pk k :: writeBackKeys pk rs ks

/-- One iteration of update's replace loop: the value is bound as one
parameter (an array value with its elements encoded through inputValue,
a scalar pushed raw) and the field set to the placeholder. -/
def replaceStep (st : SqlState) (e : String × JSVal) : SqlState :=
  let p : JSVal := match e.2 with
    | .arr es => .arr (es.map inputValue)
    | .scalar s => .scalar s
  { index := st.index + 1, parameters := st.parameters ++ [p],
    clauses := st.clauses ++ [qid e.1 ++ " = $" ++ toString (st.index + 1)] }

/-- One iteration of update's push loop: a sequence value concatenates
onto the field via array_cat, a scalar appends via array_append. -/
def pushStep (st : SqlState) (e : String × JSVal) : SqlState :=
  match e.2 with
  | .arr es =>
    { index := st.index + 1, parameters := st.parameters ++ [.arr (es.map inputValue)],
      clauses := st.clauses ++ [qid e.1 ++ " = array_cat(" ++ qid e.1 ++ ", $" ++
        toString (st.index + 1) ++ ")"] }
  | .scalar s =>
    { index := st.index + 1, parameters := st.parameters ++ [.scalar s],
      clauses := st.clauses ++ [qid e.1 ++ " = array_append(" ++ qid e.1 ++ ", $" ++
        toString (st.index + 1) ++ ")"] }

/-- One iteration of update's pull loop: a sequence value removes all
matching elements via a filtered re-selection of the unnested array; a
scalar removes that value via array_remove. -/
def pullStep (st : SqlState) (e : String × JSVal) : SqlState :=
  match e.2 with
  | .arr es =>
    let r := mapValueList es st
    { r.2 with clauses := r.2.clauses ++
      [qid e.1 ++ " = array(select x from unnest(" ++ qid e.1 ++ ") " ++
        "x where x not in (" ++ String.intercalate ", " r.1 ++ "))"] }
  | .scalar s =>
    { index := st.index + 1, parameters := st.parameters ++ [.scalar s],
      clauses := st.clauses ++ [qid e.1 ++ " = array_remove(" ++ qid e.1 ++ ", $" ++
        toString (st.index + 1) ++ ")"] }

/-- One update specification. -/
structure UpdateSpec where
  id : JSScalar
  replaceE : List (String × JSVal) := []
  pushE : List (String × JSVal) := []
  pullE : List (String × JSVal) := []

/-- The per-record update statement: replace, push and pull set-clauses
in source order, then the primary-key equality with the final
placeholder bound to the update's id. -/
def updateStatement (table pk : String) (u : UpdateSpec) : String × List JSVal :=
  let st1 := u.replaceE.foldl replaceStep ⟨0, [], []⟩
  let st2 := u.pushE.foldl pushStep st1
  let st3 := u.pullE.foldl pullStep st2
  ("update " ++ qid table ++ " " ++ "set " ++ String.intercalate ", " st3.clauses ++
    " " ++ "where " ++ qid pk ++ " = $" ++ toString (st3.index + 1),
    st3.parameters ++ [.scalar u.id])

/-- Model of PostgreSQL `array_append(xs, v)`: xs with v appended. -/
def pgArrayAppend (xs : List JSScalar) (v : JSScalar) : List JSScalar := xs ++ [v]

/-- Model of PostgreSQL `array_cat(xs, ys)`: concatenation. -/
def pgArrayCat (xs ys : List JSScalar) : List JSScalar := xs ++ ys

/-- Model of PostgreSQL `array_remove(xs, v)`: all elements equal to v
removed. -/
def pgArrayRemove (xs : List JSScalar) (v : JSScalar) : List JSScalar :=
  xs.filter (fun x => decide (x ≠ v))

/-- Model of the emitted
`array(select x from unnest(xs) x where x not in (vs))` re-selection for
non-null element values: the elements occurring in vs removed. -/
def pgArrayFilterNotIn (xs vs : List JSScalar) : List JSScalar :=
  xs.filter (fun x => decide (x ∉ vs))

/-- A filter-specification node of the helpers module's generateQuery:
one own enumerable key of the options object, in insertion order. -/
inductive FilterKey where
  | andK (clauses : List (List FilterKey))
  | orK (clauses : List (List FilterKey))
  | notK (clause : List FilterKey)
  | rangeK (entries : List (String × (Option JSScalar × Option JSScalar)))
  | matchK (entries : List (String × JSVal))
  | existsK (entries : List (String × Bool))
  | otherK

/-- The helpers module's applyMatch.  Its mapValue / mapValueCast
helpers live at module scope where no `index` or `parameters` variable
is declared, and the scalar branch increments `index` directly, so
every iteration that must emit a placeholder throws
`ReferenceError: index is not defined`; only iterations over empty
sequences get as far as pushing a (placeholder-free) fragment. -/
def applyMatchPart (schema : Schema) (st : SqlState) :
    List (String × JSVal) → Except JSError SqlState
  | [] => .ok st
  | e :: rest =>
    match schemaLookup schema e.1 with
    | none => .error (.typeError "cannot read properties of undefined (isArray)")
    | some isArr =>
      if isArr then
        match matchElems e.2 with
        | [] => applyMatchPart schema
            { st with clauses := st.clauses ++ [qid e.1 ++ " @> array[]"] } rest
        | _ :: _ => .error (.referenceError "index is not defined")
      else
        match e.2 with
        | .arr [] => applyMatchPart schema
            { st with clauses := st.clauses ++ [qid e.1 ++ " in ()"] } rest
        | .arr (_ :: _) => .error (.referenceError "index is not defined")
        | .scalar _ => .error (.referenceError "index is not defined")

/-- The helpers module's applyExists (this one binds no parameters and
references only variables in scope, so it works). -/
def applyExistsPart (schema : Schema) (st : SqlState) :
    List (String × Bool) → Except JSError SqlState
  | [] => .ok st
  | e :: rest =>
    match schemaLookup schema e.1 with
    | none => .error (.typeError "cannot read properties of undefined (isArray)")
    | some isArr =>
      if isArr then
        applyExistsPart schema { st with clauses := st.clauses ++
          ["coalesce(array_length(" ++ qid e.1 ++ ", 1), 0) " ++
            (if e.2 then "> 0" else "= 0")] } rest
      else
        applyExistsPart schema { st with clauses := st.clauses ++
          [qid e.1 ++ " " ++ (if e.2 then "is not null" else "is null")] } rest

/-- The helpers module's generateQuery, per key of the options object:

* `and`: the source calls `applyLogicalAnd(where, fields, options[key],
  parameters)` — four arguments for five parameters — so inside
  applyLogicalAnd `clauses` is bound to the caller's `parameters` array
  and `parameters` is undefined.  The loop therefore iterates the bound
  parameter values; each such value is not a plain options object, so
  the recursive generateQuery call finds no matching enumerable key and
  contributes nothing, and the fragment lists collected in `outer` are
  discarded (never pushed onto the real `where`).  Net effect: no state
  change, then the `return` exits generateQuery.
* `or` / `not`: `applyLogicalOr` / `applyLogicalNot` are not defined
  anywhere in the module, so invoking them throws a ReferenceError.
* `range`: applyRange reads `isArrayKey`, which is not declared in its
  scope — ReferenceError on the first entry (an empty map loops zero
  times and falls through).
* `match` / `exists`: delegated to applyMatch / applyExists above.
-/
def generateQueryGo (schema : Schema) : List FilterKey → SqlState → Except JSError SqlState
  | [], st => .ok st
  | .andK _ :: _, st => .ok st
  | .orK _ :: _, _ => .error (.referenceError "applyLogicalOr is not defined")
  | .notK _ :: _, _ => .error (.referenceError "applyLogicalNot is not defined")
  | .rangeK entries :: rest, st =>
    match entries with
    | [] => generateQueryGo schema rest st
    | _ :: _ => .error (.referenceError "isArrayKey is not defined")
  | .matchK entries :: rest, st => do
    generateQueryGo schema rest (← applyMatchPart schema st entries)
  | .existsK entries :: rest, st => do
    generateQueryGo schema rest (← applyExistsPart schema st entries)
  | .otherK :: rest, st => generateQueryGo schema rest st

/-- Placeholders `$⟨i+1⟩ … $⟨i+n⟩`: the closed form of the counter
pattern, used to state that emitted numbers are consecutive and
globally unique. -/
def placeholderRange (i n : Nat) : List String :=
  (List.range n).map (fun k => "$" ++ toString (i + k + 1))

/-- Closed form of mapValueCast's fragments: consecutive placeholders,
each cast `::bytea` exactly when its element is a buffer — and cast
nothing otherwise. -/
def castPlaceholderRange (i : Nat) : List JSScalar → List String
  | [] => []
  | v :: rest =>
    ("$" ++ toString (i + 1) ++ (if isBufferS v then "::bytea" else "")) ::
      castPlaceholderRange (i + 1) rest

/-- Substring test on statement text. -/
def strContains (pat s : String) : Bool :=
  decide (List.IsInfix pat.toList s.toList)

/-- The shape of a filter value: everything the statement text may
legitimately depend on (array-ness, length, per-element buffer-ness for
the cast) — but never the payload itself. -/
def valShape : JSVal → Bool ⊕ List Bool
  | .scalar s => .inl (isBufferS s)
  | .arr es => .inr (es.map isBufferS)

/-- The comparator relation is total (needed for the sortedness of
insertionSort). -/
instance : IsTotal String (fun a b : String => jsStrLe a b = true) := by
  refine ⟨fun a b => ?_⟩
  unfold jsStrLe
  generalize a.toList = x
  generalize b.toList = y
  induction x generalizing y with
  | nil => left; rfl
  | cons c cs ih =>
    cases y with
    | nil => right; rfl
    | cons d ds =>
      by_cases h1 : c.toNat < d.toNat
      · left; simp [charListLe, h1]
      · by_cases h2 : d.toNat < c.toNat
        · right; simp [charListLe, h2]
        · rcases ih ds with h | h
          · left; simp [charListLe, h1, h2, h]
          · right; simp [charListLe, h1, h2, h]

/-- The comparator relation is transitive. -/
instance : IsTrans String (fun a b : String => jsStrLe a b = true) := by
  have key : ∀ a b c : List Char, charListLe a b = true → charListLe b c = true →
      charListLe a c = true := by
    intro a
    induction a with
    | nil => intro b c _ _; rfl
    | cons x xs ih =>
      intro b c hab hbc
      cases b with
      | nil => simp [charListLe] at hab
      | cons y ys =>
        cases c with
        | nil => simp [charListLe] at hbc
        | cons z zs =>
          simp only [charListLe] at hab hbc ⊢
          by_cases hxy : x.toNat < y.toNat <;>
            by_cases hyz : y.toNat < z.toNat <;>
            by_cases hyx : y.toNat < x.toNat <;>
            by_cases hzy : z.toNat < y.toNat <;>
            by_cases hxz : x.toNat < z.toNat <;>
            by_cases hzx : z.toNat < x.toNat <;>
            simp_all <;>
            first
              | omega
              | exact ih ys zs hab hbc
              | exact Or.inr (ih ys zs hab hbc)
  exact ⟨fun a b c => key a.toList b.toList c.toList⟩

/-- The stable sort order create uses for the non-key columns
(`Object.keys(recordTypes[type]).sort()`). -/
def jsSortedFields (fieldNames : List String) : List String :=
  List.insertionSort (fun a b : String => jsStrLe a b = true) fieldNames

/-- The claimed shape of create's VALUES groups: nrows identical groups
of ncols consecutively numbered placeholders. -/
def createRowShape (ncols nrows : Nat) : List String :=
  (List.range nrows).map (fun j =>
    "(" ++ String.intercalate ", " (placeholderRange (j * ncols) ncols) ++ ")")

/-- The claimed create parameter list: per record, its primary key
value (when every record carries one) followed by its field values in
column order. -/
def createParamsList (pk : String) (hasPK : Bool) (ordered : List String)
    (records : List RecObj) : List JSVal :=
  records.flatMap (fun r =>
    (if hasPK then [recGetD r pk] else []) ++ ordered.map (recGetD r))

theorem hexDigitChar_roundtrip (n : Nat) (h : n < 16) :
    hexCharVal (hexDigitChar n) = n := by
  interval_cases n <;> decide

theorem byteToHexChars_roundtrip (b : Nat) (h : b < 256) :
    hexCharVal (hexDigitChar (b / 16)) * 16 + hexCharVal (hexDigitChar (b % 16)) = b := by
  rw [hexDigitChar_roundtrip _ (by omega), hexDigitChar_roundtrip _ (by omega)]
  omega

theorem hexCharsToBytes_roundtrip (bytes : List Nat) (h : ∀ b ∈ bytes, b < 256) :
    hexCharsToBytes (bytes.flatMap byteToHexChars) = bytes := by
  induction bytes with
  | nil => rfl
  | cons b rest ih =>
    have hb : b < 256 := h b (List.mem_cons_self b rest)
    have hrest : ∀ x ∈ rest, x < 256 := fun x hx => h x (List.mem_cons_of_mem b hx)
    have hstep : (b :: rest).flatMap byteToHexChars =
        hexDigitChar (b / 16) :: hexDigitChar (b % 16) :: rest.flatMap byteToHexChars := by
      simp [List.flatMap_cons, byteToHexChars]
    rw [hstep]
    simp only [hexCharsToBytes]
    rw [byteToHexChars_roundtrip b hb, ih hrest]

theorem marker_strip (l : List Char) :
    ("\\x" ++ String.mk l).toList.drop 2 = l := by
  have h : ("\\x" ++ String.mk l).toList = '\\' :: 'x' :: l := by
    have : ("\\x" ++ String.mk l) = String.mk ('\\' :: 'x' :: l) := rfl
    rw [this]
    rfl
  rw [h]
  rfl

theorem placeholderRange_succ (i n : Nat) :
    placeholderRange i (n + 1) = ("$" ++ toString (i + 1)) :: placeholderRange (i + 1) n := by
  unfold placeholderRange
  rw [List.range_succ_eq_map, List.map_cons, List.map_map]
  refine congrArg₂ List.cons (by norm_num) ?_
  refine List.map_congr_left (fun a _ => ?_)
  have h : i + (a + 1) + 1 = i + 1 + a + 1 := by omega
  simp [Function.comp, h]

theorem counterPlaceholders_eq (n i : Nat) :
    counterPlaceholders n i = (placeholderRange i n, i + n) := by
  induction n generalizing i with
  | zero => simp [counterPlaceholders, placeholderRange]
  | succ n ih =>
    simp only [counterPlaceholders, ih, placeholderRange_succ, Prod.mk.injEq,
      and_true, true_and]
    omega

theorem mapValueList_eq (es : List JSScalar) (st : SqlState) :
    mapValueList es st =
      (placeholderRange st.index es.length,
       ⟨st.index + es.length, st.parameters ++ es.map JSVal.scalar, st.clauses⟩) := by
  induction es generalizing st with
  | nil => simp [mapValueList, placeholderRange]
  | cons v rest ih =>
    simp only [mapValueList, ih, List.length_cons, placeholderRange_succ,
      List.map_cons, List.append_assoc, List.singleton_append, Prod.mk.injEq,
      SqlState.mk.injEq, and_true, true_and]
    omega

theorem mapValueCastList_eq (es : List JSScalar) (st : SqlState) :
    mapValueCastList es st =
      (castPlaceholderRange st.index es,
       ⟨st.index + es.length, st.parameters ++ es.map JSVal.scalar, st.clauses⟩) := by
  induction es generalizing st with
  | nil => simp [mapValueCastList, castPlaceholderRange]
  | cons v rest ih =>
    simp only [mapValueCastList, ih, List.length_cons, castPlaceholderRange,
      List.map_cons, List.append_assoc, List.singleton_append, Prod.mk.injEq,
      SqlState.mk.injEq, and_true, true_and]
    omega

/-- C1: the claim that and/or/not compilation recurses through one
shared parameter counter producing globally unique increasing
placeholders fails on the code.  On the claim's own example
`and: [{match: {a: 1}}, {match: {b: 2}}]` the compiler emits no
placeholder and binds no parameter at all (applyLogicalAnd receives
shifted arguments and discards its fragments); `or`/`not` invoke
functions that do not exist; and the match path under the logical
compiler reads the undeclared counter variable `index`. -/
theorem C1_logical_combinator_compilation_broken :
    generateQueryGo [("a", false), ("b", false)]
      [.andK [[.matchK [("a", .scalar (.num 1))]], [.matchK [("b", .scalar (.num 2))]]]]
      ⟨0, [], []⟩ = .ok ⟨0, [], []⟩ ∧
    generateQueryGo [("a", false), ("b", false)]
      [.orK [[.matchK [("a", .scalar (.num 1))]]]] ⟨0, [], []⟩ =
      .error (.referenceError "applyLogicalOr is not defined") ∧
    generateQueryGo [("a", false), ("b", false)]
      [.notK [.matchK [("a", .scalar (.num 1))]]] ⟨0, [], []⟩ =
      .error (.referenceError "applyLogicalNot is not defined") ∧
    applyMatchPart [("a", false), ("b", false)] ⟨0, [], []⟩
      [("a", .scalar (.num 1))] =
      .error (.referenceError "index is not defined") :=
  ⟨rfl, rfl, rfl, rfl⟩

/-- C2: the claim that the parameter list length equals the number of
placeholders in the emitted text fails on the contains clause: find
with `contains: {name: 'foo'}` pushes the wildcard-wrapped value but
emits `"name" ilike 1` — the bare counter with no `$` — so the
statement holds one bound parameter and zero placeholders. -/
theorem C2_contains_emits_no_placeholder :
    buildFind [("name", false)] "user" "id" { containsE := [("name", "foo")] } =
      .ok ("select * from \"user\" where \"name\" ilike 1  ",
        [.scalar (.str "%foo%")]) ∧
    ("select * from \"user\" where \"name\" ilike 1  ").toList.count '$' = 0 ∧
    [JSVal.scalar (.str "%foo%")].length = 1 :=
  ⟨rfl, rfl, rfl⟩

/-- C3: for every binary value, decoding the encoded form returns the
original value: inputValue encodes a buffer as a hex string carrying
the two-character binary marker prefix, outputBuffer strips the marker
and hex-decodes back to the original bytes, and a value that is already
a raw buffer passes through decoding unchanged. -/
theorem C3_binary_value_roundtrip (bytes : List Nat) (h : ∀ b ∈ bytes, b < 256) :
    outputBuffer (inputValue (.buf bytes)) = some (.buf bytes) ∧
    inputValue (.buf bytes) = .str ("\\x" ++ bufferToHexString bytes) ∧
    outputBuffer (.buf bytes) = some (.buf bytes) := by
  refine ⟨?_, rfl, rfl⟩
  show some (JSScalar.buf (hexCharsToBytes
    (("\\x" ++ bufferToHexString bytes).toList.drop 2))) = _
  rw [bufferToHexString, marker_strip, hexCharsToBytes_roundtrip bytes h]

theorem C3_binary_value_roundtrip_witness :
    outputBuffer (inputValue (.buf [0, 171, 255])) = some (.buf [0, 171, 255]) ∧
    inputValue (.buf [0, 171, 255]) =
      .str ("\\x" ++ bufferToHexString [0, 171, 255]) ∧
    outputBuffer (.buf [0, 171, 255]) = some (.buf [0, 171, 255]) :=
  C3_binary_value_roundtrip [0, 171, 255] (by decide)

/-- C4 counterexample: a whole-number element of an array-field match
is not cast to integer by find's compiler: match `{tags: 1}` on the
array field tags emits `"tags" @> array[$1]` — the element placeholder
carries no `::int` cast (the claim requires one). -/
theorem C4_whole_number_element_uncast :
    matchStep [("tags", true)] ⟨0, [], []⟩ ("tags", .scalar (.num 1)) =
      .ok ⟨1, [.scalar (.num 1)], ["\"tags\" @> array[$1]"]⟩ ∧
    strContains "::int" "\"tags\" @> array[$1]" = false ∧
    strContains "$1" "\"tags\" @> array[$1]" = true :=
  ⟨rfl, by decide, by decide⟩

/-- C4 (amended): compilation of one match entry over a declared field:
a non-array field with a sequence value compiles to a membership
predicate with one placeholder per element; a non-array field with a
scalar value compiles to an equality placeholder; an array field (the
value coerced to a one-element sequence when scalar) compiles to an
array-containment predicate whose element placeholders are cast
`::bytea` exactly when the element is binary and are uncast otherwise
(in particular, whole-number elements are not cast). -/
theorem C4_match_entry_compilation (schema : Schema) (st : SqlState)
    (f : String) (v : JSVal) (isArr : Bool)
    (h : schemaLookup schema f = some isArr) :
    (isArr = false → ∀ es, v = .arr es →
      matchStep schema st (f, v) = .ok
        ⟨st.index + es.length, st.parameters ++ es.map JSVal.scalar,
         st.clauses ++ [qid f ++ " in (" ++
           String.intercalate ", " (placeholderRange st.index es.length) ++ ")"]⟩) ∧
    (isArr = false → ∀ s, v = .scalar s →
      matchStep schema st (f, v) = .ok
        ⟨st.index + 1, st.parameters ++ [.scalar s],
         st.clauses ++ [qid f ++ " = $" ++ toString (st.index + 1)]⟩) ∧
    (isArr = true →
      matchStep schema st (f, v) = .ok
        ⟨st.index + (matchElems v).length,
         st.parameters ++ (matchElems v).map JSVal.scalar,
         st.clauses ++ [qid f ++ " @> array[" ++
           String.intercalate ", " (castPlaceholderRange st.index (matchElems v)) ++
           "]"]⟩) := by
  refine ⟨?_, ?_, ?_⟩
  · rintro hA es rfl
    simp [matchStep, h, hA, mapValueList_eq]
  · rintro hA s rfl
    simp [matchStep, h, hA]
  · intro hA
    simp [matchStep, h, hA, mapValueCastList_eq]

theorem C4_match_entry_compilation_witness :
    matchStep [("a", false)] ⟨0, [], []⟩ ("a", .scalar (.num 3)) =
      .ok ⟨1, [.scalar (.num 3)], ["\"a\" = $1"]⟩ := by
  have h := (C4_match_entry_compilation [("a", false)] ⟨0, [], []⟩ "a"
    (.scalar (.num 3)) false rfl).2.1 rfl (.num 3) rfl
  simpa using h

/-- C6: update compilation for array fields: push with a sequence value
concatenates the whole sequence via array_cat; push with a scalar
appends one element via array_append; pull with a sequence removes
every element occurring in it via a filtered re-selection of the
unnested array; pull with a scalar removes that value's occurrences via
array_remove.  Under the semantics of the emitted PostgreSQL array
operators, pushing a scalar onto an empty array yields a one-element
array and pulling a from [a, b, a] yields [b]. -/
theorem C6_push_pull_compilation (st : SqlState) (f : String) (s : JSScalar)
    (es : List JSScalar) (a b : JSScalar) (hab : a ≠ b) :
    pushStep st (f, .arr es) =
      ⟨st.index + 1, st.parameters ++ [.arr (es.map inputValue)],
       st.clauses ++ [qid f ++ " = array_cat(" ++ qid f ++ ", $" ++
         toString (st.index + 1) ++ ")"]⟩ ∧
    pushStep st (f, .scalar s) =
      ⟨st.index + 1, st.parameters ++ [.scalar s],
       st.clauses ++ [qid f ++ " = array_append(" ++ qid f ++ ", $" ++
         toString (st.index + 1) ++ ")"]⟩ ∧
    pullStep st (f, .arr es) =
      ⟨st.index + es.length, st.parameters ++ es.map JSVal.scalar,
       st.clauses ++ [qid f ++ " = array(select x from unnest(" ++ qid f ++ ") " ++
         "x where x not in (" ++
         String.intercalate ", " (placeholderRange st.index es.length) ++ "))"]⟩ ∧
    pullStep st (f, .scalar s) =
      ⟨st.index + 1, st.parameters ++ [.scalar s],
       st.clauses ++ [qid f ++ " = array_remove(" ++ qid f ++ ", $" ++
         toString (st.index + 1) ++ ")"]⟩ ∧
    pgArrayAppend [] s = [s] ∧
    pgArrayRemove [a, b, a] a = [b] ∧
    (∀ xs vs x, x ∈ pgArrayFilterNotIn xs vs ↔ x ∈ xs ∧ x ∉ vs) := by
  refine ⟨rfl, rfl, ?_, rfl, rfl, ?_, ?_⟩
  · simp [pullStep, mapValueList_eq]
  · have h1 : (decide (a ≠ a)) = false := by simp
    have h2 : (decide (b ≠ a)) = true := by simp [Ne.symm hab]
    simp only [pgArrayRemove, List.filter_cons, h1, h2, if_true, if_false]
    rfl
  · intro xs vs x
    simp [pgArrayFilterNotIn, List.mem_filter]

theorem C6_push_pull_compilation_witness :
    pgArrayAppend [] (JSScalar.num 7) = [JSScalar.num 7] ∧
    pgArrayRemove [JSScalar.num 1, JSScalar.num 2, JSScalar.num 1]
      (JSScalar.num 1) = [JSScalar.num 2] :=
  ⟨(C6_push_pull_compilation ⟨0, [], []⟩ "tags" (.num 7) [] (.num 1) (.num 2)
      (by decide)).2.2.2.2.1,
   (C6_push_pull_compilation ⟨0, [], []⟩ "tags" (.num 7) [] (.num 1) (.num 2)
      (by decide)).2.2.2.2.2.1⟩

/-- C8: the no-op conditions: find with an explicitly empty id list,
delete with an explicitly empty id list and create with an empty record
list each return without issuing a statement to the store, and an
update statement failing with the store's undefined-column code 42703
resolves that record's contribution as zero rows affected rather than
an error. -/
theorem C8_noop_conditions (schema : Schema) (table pk : String)
    (fieldNames : List String) (o : FindOptions) (e : PGError)
    (h : getCode e = some "42703") :
    findAction schema table pk (some []) o = .ok .noop ∧
    deleteAction table pk (some []) = .noop ∧
    createAction table pk fieldNames [] = .noop ∧
    updateHandleError e = .ok 0 := by
  refine ⟨?_, ?_, rfl, ?_⟩
  · simp [findAction]
  · simp [deleteAction]
  · simp [updateHandleError, h]

theorem C8_noop_conditions_witness :
    findAction [("a", false)] "t" "id" (some []) {} = .ok .noop ∧
    deleteAction "t" "id" (some []) = .noop ∧
    createAction "t" "id" ["a"] [] = .noop ∧
    updateHandleError ⟨some "42703", none, "column does not exist"⟩ = .ok 0 :=
  C8_noop_conditions [("a", false)] "t" "id" ["a"] {}
    ⟨some "42703", none, "column does not exist"⟩ (by decide)

/-- C9: create's error branch: a store error whose code (falling back
to sqlState) is the unique-constraint-violation code 23505 is rejected
as a domain ConflictError; a store error carrying any other code is
propagated to the caller unchanged. -/
theorem C9_create_conflict_translation (e : PGError) :
    (getCode e = some "23505" →
      createHandleError e = .conflictError "Unique constraint violated.") ∧
    (getCode e ≠ some "23505" → createHandleError e = .storeError e) := by
  constructor <;> intro h <;> simp [createHandleError, h]

theorem C9_create_conflict_translation_witness :
    createHandleError ⟨some "23505", none, "duplicate key"⟩ =
      .conflictError "Unique constraint violated." ∧
    createHandleError ⟨some "40001", none, "serialization failure"⟩ =
      .storeError ⟨some "40001", none, "serialization failure"⟩ :=
  ⟨(C9_create_conflict_translation _).1 (by decide),
   (C9_create_conflict_translation _).2 (by decide)⟩


theorem createRowShape_shift (ncols n : Nat) :
    (List.range n).map (fun j =>
        "(" ++ String.intercalate ", " (placeholderRange (0 + j * ncols) ncols) ++ ")") =
      createRowShape ncols n := by
  unfold createRowShape
  refine List.map_congr_left (fun a _ => ?_)
  norm_num

theorem createRowsAux_eq (pk : String) (hasPK : Bool) (ordered : List String)
    (rs : List RecObj) (i : Nat) (ps : List JSVal) :
    createRowsAux pk hasPK ordered rs i ps =
      ((List.range rs.length).map (fun j =>
          "(" ++ String.intercalate ", "
            (placeholderRange (i + j * ((if hasPK then 1 else 0) + ordered.length))
              ((if hasPK then 1 else 0) + ordered.length)) ++ ")"),
       i + rs.length * ((if hasPK then 1 else 0) + ordered.length),
       ps ++ createParamsList pk hasPK ordered rs) := by
  induction rs generalizing i ps with
  | nil => simp [createRowsAux, createParamsList]
  | cons r rest ih =>
    simp only [createRowsAux, counterPlaceholders_eq, ih, List.length_cons, Prod.mk.injEq,
      createParamsList, List.flatMap_cons, List.append_assoc]
    refine ⟨?_, by ring, trivial⟩
    rw [List.range_succ_eq_map, List.map_cons, List.map_map]
    refine congrArg₂ List.cons (by norm_num) ?_
    refine List.map_congr_left (fun a _ => ?_)
    have h : i + ((if hasPK then 1 else 0) + ordered.length) +
        a * ((if hasPK then 1 else 0) + ordered.length) =
        i + (a + 1) * ((if hasPK then 1 else 0) + ordered.length) := by ring
    simp [Function.comp, h]

theorem find?_map_recSet (r : RecObj) (k : String) (v : JSVal) :
    (r.map (fun p => if p.1 == k then (k, v) else p)).find? (fun p => p.1 == k) =
      if keyIn k r then some (k, v) else none := by
  induction r with
  | nil => simp [keyIn]
  | cons p rest ih =>
    by_cases hp : p.1 = k
    · have hpb : (p.1 == k) = true := by simpa using hp
      have h1 : (p :: rest).map (fun p => if p.1 == k then (k, v) else p) =
          (k, v) :: rest.map (fun p => if p.1 == k then (k, v) else p) := by
        simp [hpb, hp]
      rw [h1, List.find?_cons_of_pos _ (by simp), if_pos (by simp [keyIn, hpb])]
    · have hpb : (p.1 == k) = false := by simpa using hp
      have h1 : (p :: rest).map (fun p => if p.1 == k then (k, v) else p) =
          p :: rest.map (fun p => if p.1 == k then (k, v) else p) := by
        simp [hpb, hp]
      rw [h1, List.find?_cons_of_neg _ (by simp [hpb]), ih]
      have h2 : keyIn k (p :: rest) = keyIn k rest := by
        simp [keyIn, hpb]
      rw [h2]

theorem recGet_recSet_self (r : RecObj) (k : String) (v : JSVal) :
    recGet k (recSet r k v) = some v := by
  unfold recSet
  by_cases h : keyIn k r
  · rw [if_pos h]
    unfold recGet
    rw [find?_map_recSet, if_pos h]
    rfl
  · have hb : keyIn k r = false := by simpa using h
    simp only [hb, Bool.false_eq_true, if_false, recGet]
    induction r with
    | nil => simp [List.find?]
    | cons p rest ih =>
      simp only [keyIn, List.any_cons, Bool.or_eq_false_iff] at hb
      simp only [List.cons_append, List.find?, hb.1, Bool.false_eq_true, ite_false]
      exact ih (by simp [keyIn, hb.2]) (by simp [keyIn, hb.2])

theorem writeBackKeys_eq_zipWith (pk : String) (rs : List RecObj) (ks : List JSVal)
    (h : ks.length = rs.length) :
    writeBackKeys pk rs ks = List.zipWith (fun r k => recSet r pk k) rs ks := by
  induction rs generalizing ks with
  | nil =>
    cases ks with
    | nil => rfl
    | cons k ks => simp at h
  | cons r rest ih =>
    cases ks with
    | nil => simp at h
    | cons k ks =>
      simp only [writeBackKeys, List.zipWith_cons_cons]
      exact congrArg _ (ih ks (by simpa using h))

theorem createStatement_eq (table pk : String) (fieldNames : List String)
    (records : List RecObj) :
    createStatement table pk fieldNames records =
      ((if records.all (fun r => keyIn pk r) then "" else "with inserted as (") ++
        "insert into " ++ qid table ++ " (" ++ String.intercalate ", "
          ((if records.all (fun r => keyIn pk r) then [qid pk] else []) ++
            (jsSortedFields fieldNames).map qid) ++
        ") values " ++ String.intercalate ", "
          (createRowShape ((if records.all (fun r => keyIn pk r) then 1 else 0) +
            (jsSortedFields fieldNames).length) records.length) ++
        (if records.all (fun r => keyIn pk r) then ""
          else " returning " ++ pk ++ ") select id from inserted"),
       createParamsList pk (records.all (fun r => keyIn pk r))
         (jsSortedFields fieldNames) records) := by
  have hfold : List.insertionSort (fun a b : String => jsStrLe a b = true) fieldNames =
    jsSortedFields fieldNames := rfl
  simp only [createStatement, hfold, createRowsAux_eq, List.nil_append,
    createRowShape_shift]

/-- C5: create's insert has deterministically ordered columns — the
primary key first (when every input record carries one), then the
remaining declared fields in a stable sorted order — and every row of
the multi-row VALUES list gets the same number of consecutively
numbered placeholders in that same column order; the parameter list
supplies, per record, its primary key value (when keys are
caller-supplied) followed by its field values in column order.  When
some record lacks a primary key, the key column is omitted and the
statement requests the store-assigned keys back (`returning pk`), and
the returned keys are written into the corresponding output records
positionally (the i-th returned key into the i-th record). -/
theorem C5_create_statement_shape (table pk : String) (fieldNames : List String)
    (records : List RecObj) (keys : List JSVal)
    (hpk : pk ∉ fieldNames) (hlen : keys.length = records.length) :
    List.Sorted (fun a b : String => jsStrLe a b = true) (jsSortedFields fieldNames) ∧
    List.Perm (jsSortedFields fieldNames) fieldNames ∧
    (createStatement table pk fieldNames records).2 =
      createParamsList pk (records.all (fun r => keyIn pk r))
        (jsSortedFields fieldNames) records ∧
    (records.all (fun r => keyIn pk r) = true →
      (createStatement table pk fieldNames records).1 =
        "insert into " ++ qid table ++ " (" ++
          String.intercalate ", " ((qid pk :: (jsSortedFields fieldNames).map qid)) ++
          ") values " ++ String.intercalate ", "
            (createRowShape (1 + (jsSortedFields fieldNames).length) records.length)) ∧
    (records.all (fun r => keyIn pk r) = false →
      pk ∉ jsSortedFields fieldNames ∧
      (createStatement table pk fieldNames records).1 =
        "with inserted as (" ++ "insert into " ++ qid table ++ " (" ++
          String.intercalate ", " ((jsSortedFields fieldNames).map qid) ++
          ") values " ++ String.intercalate ", "
            (createRowShape ((jsSortedFields fieldNames).length) records.length) ++
          " returning " ++ pk ++ ") select id from inserted") ∧
    writeBackKeys pk records keys =
      List.zipWith (fun r k => recSet r pk k) records keys ∧
    (∀ (r : RecObj) (k : JSVal), recGet pk (recSet r pk k) = some k) := by
  have hperm : List.Perm (jsSortedFields fieldNames) fieldNames :=
    List.perm_insertionSort _ fieldNames
  refine ⟨List.sorted_insertionSort _ fieldNames, hperm, ?_, ?_, ?_,
    writeBackKeys_eq_zipWith pk records keys hlen,
    fun r k => recGet_recSet_self r pk k⟩
  · rw [createStatement_eq]
  · intro hAll
    rw [createStatement_eq]
    simp [hAll]
  · intro hAll
    refine ⟨fun hmem => hpk (hperm.mem_iff.mp hmem), ?_⟩
    rw [createStatement_eq]
    simp [hAll, String.append_assoc]

theorem C5_create_statement_shape_witness :
    (createStatement "t" "id" ["b", "a"]
      [[("id", JSVal.scalar (.str "k1")), ("a", JSVal.scalar (.num 1)),
        ("b", JSVal.scalar (.num 2))]]).1 =
      "insert into \"t\" (\"id\", \"a\", \"b\") values ($1, $2, $3)" := by
  have h := (C5_create_statement_shape "t" "id" ["b", "a"]
    [[("id", JSVal.scalar (.str "k1")), ("a", JSVal.scalar (.num 1)),
      ("b", JSVal.scalar (.num 2))]]
    [JSVal.scalar (.str "k9")] (by decide) rfl).2.2.2.1 rfl
  rw [h]
  rfl

theorem keyIn_eq_isSome (k : String) (r : RecObj) :
    keyIn k r = (recGet k r).isSome := by
  induction r with
  | nil => rfl
  | cons p rest ih =>
    by_cases hp : p.1 = k
    · simp [keyIn, recGet, List.find?, hp]
    · have hpb : (p.1 == k) = false := by simpa using hp
      simp only [keyIn, recGet, List.any_cons, List.find?, hpb, Bool.false_or,
        Bool.false_eq_true, ite_false]
      exact ih

theorem keyIn_some (k : String) (r : RecObj) (h : keyIn k r = true) :
    ∃ v, recGet k r = some v := by
  rw [keyIn_eq_isSome] at h
  exact Option.isSome_iff_exists.mp h

theorem find?_map_recSet_ne (k k' : String) (v : JSVal) (h : (k == k') = false)
    (r : RecObj) :
    (r.map (fun p => if p.1 == k then (k, v) else p)).find? (fun p => p.1 == k') =
      r.find? (fun p => p.1 == k') := by
  induction r with
  | nil => rfl
  | cons p rest ih =>
    by_cases hp : p.1 = k
    · have hpb : (p.1 == k) = true := by simpa using hp
      have hpk : (p.1 == k') = false := by rw [hp]; exact h
      have hmap : (p :: rest).map (fun p => if p.1 == k then (k, v) else p) =
          (k, v) :: rest.map (fun p => if p.1 == k then (k, v) else p) := by
        simp [hpb, hp]
      rw [hmap]
      simp only [List.find?, h, hpk]
      exact ih
    · have hpb : (p.1 == k) = false := by simpa using hp
      have hmap : (p :: rest).map (fun p => if p.1 == k then (k, v) else p) =
          p :: rest.map (fun p => if p.1 == k then (k, v) else p) := by
        simp [hpb, hp]
      rw [hmap]
      cases hc : (p.1 == k') with
      | true => simp only [List.find?, hc]
      | false =>
        simp only [List.find?, hc]
        exact ih

theorem find?_append_single_ne (k k' : String) (v : JSVal) (h : (k == k') = false)
    (r : RecObj) :
    (r ++ [(k, v)]).find? (fun p => p.1 == k') = r.find? (fun p => p.1 == k') := by
  induction r with
  | nil =>
    simp only [List.nil_append, List.find?, h]
  | cons p rest ih =>
    simp only [List.cons_append]
    cases hc : (p.1 == k') with
    | true => simp only [List.find?, hc]
    | false =>
      simp only [List.find?, hc]
      exact ih

theorem recGet_recSet_ne (r : RecObj) (k k' : String) (v : JSVal) (h : k' ≠ k) :
    recGet k' (recSet r k v) = recGet k' r := by
  have hkk : (k == k') = false := beq_eq_false_iff_ne.mpr (fun he => h he.symm)
  unfold recSet
  by_cases hk : keyIn k r
  · rw [if_pos hk]
    unfold recGet
    rw [find?_map_recSet_ne k k' v hkk r]
  · rw [if_neg hk]
    unfold recGet
    rw [find?_append_single_ne k k' v hkk r]

theorem keyIn_recSet_ne (r : RecObj) (k k' : String) (v : JSVal) (h : k' ≠ k) :
    keyIn k' (recSet r k v) = keyIn k' r := by
  rw [keyIn_eq_isSome, keyIn_eq_isSome, recGet_recSet_ne r k k' v h]

theorem inputRecordFold_ok (schema : Schema) :
    ∀ rec : RecObj, (schema.map Prod.fst).Nodup →
    (∀ p ∈ schema, p.2 = true → ∀ v, recGet p.1 rec = some v →
      ∃ es, v = JSVal.arr es) →
    ∃ rec2, List.foldlM inputRecordField rec schema = .ok rec2 ∧
      (∀ k, k ∉ schema.map Prod.fst → recGet k rec2 = recGet k rec) ∧
      (∀ p ∈ schema,
        (keyIn p.1 rec = false →
          recGet p.1 rec2 = some (if p.2 then JSVal.arr [] else JSVal.scalar .nul)) ∧
        (∀ v w, recGet p.1 rec = some v → encodeFieldValue p.2 v = .ok w →
          recGet p.1 rec2 = some w)) := by
  induction schema with
  | nil =>
    intro rec _ _
    exact ⟨rec, rfl, fun k _ => rfl, fun p hp => absurd hp (List.not_mem_nil p)⟩
  | cons fp rest ih =>
    intro rec hnodup hwt
    have hmap : (fp :: rest).map Prod.fst = fp.1 :: rest.map Prod.fst := rfl
    rw [hmap] at hnodup
    have hn := List.nodup_cons.mp hnodup
    obtain ⟨rec1, hrec1, hne, hdef, henc⟩ :
        ∃ rec1, inputRecordField rec fp = .ok rec1 ∧
          (∀ k, k ≠ fp.1 → recGet k rec1 = recGet k rec ∧ keyIn k rec1 = keyIn k rec) ∧
          (keyIn fp.1 rec = false →
            recGet fp.1 rec1 = some (if fp.2 then JSVal.arr [] else JSVal.scalar .nul)) ∧
          (∀ v w, recGet fp.1 rec = some v → encodeFieldValue fp.2 v = .ok w →
            recGet fp.1 rec1 = some w) := by
      by_cases hk : keyIn fp.1 rec
      · obtain ⟨v, hv⟩ := keyIn_some fp.1 rec hk
        obtain ⟨w, hw⟩ : ∃ w, encodeFieldValue fp.2 v = .ok w := by
          by_cases ha : fp.2 = true
          · obtain ⟨es, rfl⟩ := hwt fp (List.mem_cons_self fp rest) ha v hv
            exact ⟨.arr (es.map inputValue), by simp [encodeFieldValue, ha]⟩
          · have ha' : fp.2 = false := by simpa using ha
            cases v with
            | scalar s => exact ⟨.scalar (inputValue s), by simp [encodeFieldValue, ha']⟩
            | arr es => exact ⟨.arr es, by simp [encodeFieldValue, ha']⟩
        refine ⟨recSet rec fp.1 w, ?_, ?_, ?_, ?_⟩
        · unfold inputRecordField
          rw [if_pos hk, hv]
          show Except.map (fun w => recSet rec fp.1 w) (encodeFieldValue fp.2 v) = _
          rw [hw]
          rfl
        · intro k hkne
          exact ⟨recGet_recSet_ne rec fp.1 k w hkne, keyIn_recSet_ne rec fp.1 k w hkne⟩
        · intro hfalse
          rw [hk] at hfalse
          cases hfalse
        · intro v' w' hv' hw'
          rw [hv] at hv'
          injection hv' with hveq
          subst hveq
          rw [hw] at hw'
          injection hw' with hweq
          subst hweq
          exact recGet_recSet_self rec fp.1 w
      · have hkf : keyIn fp.1 rec = false := by simpa using hk
        refine ⟨recSet rec fp.1 (if fp.2 then JSVal.arr [] else JSVal.scalar .nul),
          ?_, ?_, ?_, ?_⟩
        · unfold inputRecordField
          rw [if_neg hk]
        · intro k hkne
          exact ⟨recGet_recSet_ne _ _ _ _ hkne, keyIn_recSet_ne _ _ _ _ hkne⟩
        · intro _
          exact recGet_recSet_self _ _ _
        · intro v w hv _
          rw [keyIn_eq_isSome, hv] at hkf
          cases hkf
    have hwt' : ∀ p ∈ rest, p.2 = true → ∀ v, recGet p.1 rec1 = some v →
        ∃ es, v = JSVal.arr es := by
      intro p hp ht v hv
      have hne_p : p.1 ≠ fp.1 := by
        intro he
        exact hn.1 (he ▸ List.mem_map_of_mem Prod.fst hp)
      rw [(hne p.1 hne_p).1] at hv
      exact hwt p (List.mem_cons_of_mem fp hp) ht v hv
    obtain ⟨rec2, hfold, hframe, hfields⟩ := ih rec1 hn.2 hwt'
    refine ⟨rec2, ?_, ?_, ?_⟩
    · rw [List.foldlM_cons, hrec1]
      simpa using hfold
    · intro k hk2
      have hk2' : k ≠ fp.1 ∧ k ∉ rest.map Prod.fst := by simpa using hk2
      rw [hframe k hk2'.2, (hne k hk2'.1).1]
    · intro p hp
      rcases List.mem_cons.mp hp with rfl | hp'
      · have hfp2 : recGet p.1 rec2 = recGet p.1 rec1 := hframe p.1 hn.1
        exact ⟨fun hfalse => by rw [hfp2]; exact hdef hfalse,
          fun v w hv hw => by rw [hfp2]; exact henc v w hv hw⟩
      · have hne_p : p.1 ≠ fp.1 := by
          intro he
          exact hn.1 (he ▸ List.mem_map_of_mem Prod.fst hp')
        have hres := hfields p hp'
        exact ⟨fun hfalse => hres.1 (by rw [(hne p.1 hne_p).2]; exact hfalse),
          fun v w hv hw => hres.2 v w (by rw [(hne p.1 hne_p).1]; exact hv) hw⟩

/-- C10: create's record encoding mutates the caller's record objects
in place before the insert is issued: inputRecord performs a heap
update at the very reference the caller passed and hands that same
reference back (no copy is made), writing the generated primary key
into a record that lacks one, filling every absent declared field with
its default (empty array or null) on the original object, and
replacing binary buffer values by their hex-encoded string forms. -/
theorem C10_create_encodes_records_in_place (schema : Schema) (pk : String)
    (genVal : Option JSVal) (h : Heap) (r : Nat)
    (hnodup : (schema.map Prod.fst).Nodup)
    (hpk : pk ∉ schema.map Prod.fst)
    (hwt : ∀ p ∈ schema, p.2 = true → ∀ v, recGet p.1 (h r) = some v →
      ∃ es, v = JSVal.arr es) :
    ∃ rec2, inputRecordBody schema pk genVal (h r) = .ok rec2 ∧
      inputRecordH schema pk genVal h r = .ok (heapUpdate h r rec2, r) ∧
      createEncodeRefs schema pk genVal h [r] = .ok (heapUpdate h r rec2, [r]) ∧
      heapUpdate h r rec2 r = rec2 ∧
      (∀ r2, r2 ≠ r → heapUpdate h r rec2 r2 = h r2) ∧
      (keyIn pk (h r) = false → ∀ g, genVal = some g → recGet pk rec2 = some g) ∧
      (∀ p ∈ schema, keyIn p.1 (h r) = false →
        recGet p.1 rec2 = some (if p.2 then JSVal.arr [] else JSVal.scalar .nul)) ∧
      (∀ f bytes, (f, false) ∈ schema →
        recGet f (h r) = some (.scalar (.buf bytes)) →
        recGet f rec2 = some (.scalar (.str ("\\x" ++ bufferToHexString bytes)))) ∧
      (∀ f es, (f, true) ∈ schema → recGet f (h r) = some (.arr es) →
        recGet f rec2 = some (.arr (es.map inputValue))) := by
  have hne1 : ∀ k, k ≠ pk →
      recGet k (if keyIn pk (h r) then h r
        else match genVal with
          | some g => recSet (h r) pk g
          | none => h r) = recGet k (h r) ∧
      keyIn k (if keyIn pk (h r) then h r
        else match genVal with
          | some g => recSet (h r) pk g
          | none => h r) = keyIn k (h r) := by
    intro k hk
    by_cases hkp : keyIn pk (h r)
    · simp [hkp]
    · cases genVal with
      | none => simp [hkp]
      | some g =>
        simp [hkp, recGet_recSet_ne (h r) pk k g hk, keyIn_recSet_ne (h r) pk k g hk]
  have hnep : ∀ p, p ∈ schema → p.1 ≠ pk := by
    intro p hp he
    exact hpk (he ▸ List.mem_map_of_mem Prod.fst hp)
  have hwt' : ∀ p ∈ schema, p.2 = true → ∀ v,
      recGet p.1 (if keyIn pk (h r) then h r
        else match genVal with
          | some g => recSet (h r) pk g
          | none => h r) = some v → ∃ es, v = JSVal.arr es := by
    intro p hp ht v hv
    rw [(hne1 p.1 (hnep p hp)).1] at hv
    exact hwt p hp ht v hv
  obtain ⟨rec2, hfold, hframe, hfields⟩ := inputRecordFold_ok schema _ hnodup hwt'
  have hbody : inputRecordBody schema pk genVal (h r) = .ok rec2 := hfold
  have hH : inputRecordH schema pk genVal h r = .ok (heapUpdate h r rec2, r) := by
    unfold inputRecordH
    rw [hbody]
    rfl
  refine ⟨rec2, hbody, hH, ?_, ?_, ?_, ?_, ?_, ?_, ?_⟩
  · show (do
      let hr ← inputRecordH schema pk genVal h r
      let hrs ← createEncodeRefs schema pk genVal hr.1 []
      Except.ok (hrs.1, hr.2 :: hrs.2)) = Except.ok (heapUpdate h r rec2, [r])
    rw [hH]
    rfl
  · simp [heapUpdate]
  · intro r2 hr2
    simp [heapUpdate, hr2]
  · intro hfalse g hg
    subst hg
    have h2 := hframe pk hpk
    rw [if_neg (by simp [hfalse])] at h2
    have h3 : recGet pk rec2 = recGet pk (recSet (h r) pk g) := h2
    rw [h3]
    exact recGet_recSet_self (h r) pk g
  · intro p hp hfalse
    exact (hfields p hp).1 (by rw [(hne1 p.1 (hnep p hp)).2]; exact hfalse)
  · intro f bytes hmem hv
    have := (hfields (f, false) hmem).2 (.scalar (.buf bytes))
      (.scalar (.str ("\\x" ++ bufferToHexString bytes)))
      (by rw [(hne1 f (hnep (f, false) hmem)).1]; exact hv)
      (by simp [encodeFieldValue, inputValue])
    exact this
  · intro f es hmem hv
    have := (hfields (f, true) hmem).2 (.arr es) (.arr (es.map inputValue))
      (by rw [(hne1 f (hnep (f, true) hmem)).1]; exact hv)
      (by simp [encodeFieldValue])
    exact this

theorem C10_create_encodes_records_in_place_witness :
    ∃ rec2, inputRecordBody [("tags", true), ("name", false)] "id"
        (some (JSVal.scalar (.str "gen1")))
        ((fun _ => [("name", JSVal.scalar (.buf [1, 2]))]) (0 : Nat)) = .ok rec2 ∧
      recGet "id" rec2 = some (JSVal.scalar (.str "gen1")) ∧
      recGet "tags" rec2 = some (JSVal.arr []) ∧
      recGet "name" rec2 =
        some (JSVal.scalar (.str ("\\x" ++ bufferToHexString [1, 2]))) := by
  obtain ⟨rec2, hbody, hH, hrefs, hat, hframe, hgen, hdef, hbuf, harr⟩ :=
    C10_create_encodes_records_in_place [("tags", true), ("name", false)] "id"
      (some (JSVal.scalar (.str "gen1")))
      (fun _ => [("name", JSVal.scalar (.buf [1, 2]))]) 0
      (by decide) (by decide)
      (by
        intro p hp ht v hv
        rcases List.mem_cons.mp hp with rfl | hp2
        · simp [recGet, List.find?] at hv
        · rcases List.mem_cons.mp hp2 with rfl | hp3
          · simp at ht
          · cases hp3)
  refine ⟨rec2, hbody, ?_, ?_, ?_⟩
  · exact hgen (by decide) _ rfl
  · have h2 := hdef ("tags", true) (by simp) (by decide)
    simpa using h2
  · exact hbuf "name" [1, 2] (by simp) (by decide)

theorem castPlaceholderRange_shape (i : Nat) (es1 es2 : List JSScalar)
    (h : es1.map isBufferS = es2.map isBufferS) :
    castPlaceholderRange i es1 = castPlaceholderRange i es2 := by
  induction es1 generalizing i es2 with
  | nil =>
    cases es2 with
    | nil => rfl
    | cons b bs => simp at h
  | cons a as ih =>
    cases es2 with
    | nil => simp at h
    | cons b bs =>
      simp only [List.map_cons, List.cons.injEq] at h
      simp only [castPlaceholderRange, h.1, ih (i + 1) bs h.2]

theorem matchElems_shape (v1 v2 : JSVal) (h : valShape v1 = valShape v2) :
    (matchElems v1).map isBufferS = (matchElems v2).map isBufferS := by
  cases v1 <;> cases v2 <;> simp [valShape, matchElems] at h ⊢ <;> simp [h]

theorem map_eq_length {α β : Type} (f : α → β) (l1 l2 : List α)
    (h : l1.map f = l2.map f) : l1.length = l2.length := by
  have := congrArg List.length h
  simpa using this

theorem matchStep_shape (schema : Schema) (st1 st2 : SqlState)
    (e1 e2 : String × JSVal)
    (hf : e1.1 = e2.1) (hs : valShape e1.2 = valShape e2.2)
    (hidx : st1.index = st2.index) (hcl : st1.clauses = st2.clauses)
    (hpl : st1.parameters.length = st2.parameters.length) :
    (∃ er, matchStep schema st1 e1 = .error er ∧ matchStep schema st2 e2 = .error er) ∨
    (∃ r1 r2, matchStep schema st1 e1 = .ok r1 ∧ matchStep schema st2 e2 = .ok r2 ∧
      r1.index = r2.index ∧ r1.clauses = r2.clauses ∧
      r1.parameters.length = r2.parameters.length) := by
  unfold matchStep
  rw [hf]
  cases hl : schemaLookup schema e2.1 with
  | none => exact Or.inl ⟨_, rfl, rfl⟩
  | some isArr =>
    cases isArr with
    | true =>
      refine Or.inr ⟨_, _, rfl, rfl, ?_⟩
      rw [mapValueCastList_eq, mapValueCastList_eq]
      have hlen : (matchElems e1.2).length = (matchElems e2.2).length :=
        map_eq_length isBufferS _ _ (matchElems_shape _ _ hs)
      simp only [if_true]
      refine ⟨by simp [hidx, hlen], ?_, ?_⟩
      · simp [hcl, hidx, hlen, castPlaceholderRange_shape _ _ _
          (matchElems_shape _ _ hs), qid]
      · simp [hpl, hlen]
    | false =>
      cases hv1 : e1.2 with
      | arr es1 =>
        cases hv2 : e2.2 with
        | arr es2 =>
          have hlen : es1.length = es2.length := by
            rw [hv1, hv2] at hs
            simpa [valShape] using map_eq_length isBufferS es1 es2 (by
              simpa [valShape] using hs)
          refine Or.inr ⟨_, _, rfl, rfl, ?_⟩
          rw [mapValueList_eq, mapValueList_eq]
          refine ⟨by simp [hidx, hlen], by simp [hcl, hidx, hlen], by simp [hpl, hlen]⟩
        | scalar s2 =>
          rw [hv1, hv2] at hs
          simp [valShape] at hs
      | scalar s1 =>
        cases hv2 : e2.2 with
        | arr es2 =>
          rw [hv1, hv2] at hs
          simp [valShape] at hs
        | scalar s2 =>
          refine Or.inr ⟨_, _, rfl, rfl, ?_⟩
          refine ⟨by simp [hidx], by simp [hcl, hidx], by simp [hpl]⟩

theorem except_bind_ok {ε α β : Type} (a : α) (f : α → Except ε β) :
    (Except.ok a >>= f) = f a := rfl

theorem except_bind_error {ε α β : Type} (e : ε) (f : α → Except ε β) :
    ((Except.error e : Except ε α) >>= f) = Except.error e := rfl

theorem runMatch_shape (schema : Schema) :
    ∀ (l1 l2 : List (String × JSVal)) (st1 st2 : SqlState),
    l1.map (fun e => (e.1, valShape e.2)) = l2.map (fun e => (e.1, valShape e.2)) →
    st1.index = st2.index → st1.clauses = st2.clauses →
    st1.parameters.length = st2.parameters.length →
    (∃ er, List.foldlM (matchStep schema) st1 l1 = .error er ∧
      List.foldlM (matchStep schema) st2 l2 = .error er) ∨
    (∃ r1 r2, List.foldlM (matchStep schema) st1 l1 = .ok r1 ∧
      List.foldlM (matchStep schema) st2 l2 = .ok r2 ∧
      r1.index = r2.index ∧ r1.clauses = r2.clauses ∧
      r1.parameters.length = r2.parameters.length) := by
  intro l1
  induction l1 with
  | nil =>
    intro l2 st1 st2 hmap hidx hcl hpl
    cases l2 with
    | nil => exact Or.inr ⟨st1, st2, rfl, rfl, hidx, hcl, hpl⟩
    | cons e2 rest2 => simp at hmap
  | cons e1 rest1 ih =>
    intro l2 st1 st2 hmap hidx hcl hpl
    cases l2 with
    | nil => simp at hmap
    | cons e2 rest2 =>
      simp only [List.map_cons, List.cons.injEq, Prod.mk.injEq] at hmap
      rcases matchStep_shape schema st1 st2 e1 e2 hmap.1.1 hmap.1.2 hidx hcl hpl with
        ⟨er, h1, h2⟩ | ⟨r1, r2, h1, h2, hidx2, hcl2, hpl2⟩
      · refine Or.inl ⟨er, ?_, ?_⟩ <;> simp [List.foldlM_cons, h1, h2, except_bind_ok, except_bind_error]
      · rcases ih rest2 r1 r2 hmap.2 hidx2 hcl2 hpl2 with
          ⟨er, h3, h4⟩ | ⟨r3, r4, h3, h4, hidx3, hcl3, hpl3⟩
        · refine Or.inl ⟨er, ?_, ?_⟩ <;> simp [List.foldlM_cons, h1, h2, h3, h4, except_bind_ok, except_bind_error]
        · refine Or.inr ⟨r3, r4, ?_, ?_, hidx3, hcl3, hpl3⟩ <;>
            simp [List.foldlM_cons, h1, h2, h3, h4, except_bind_ok, except_bind_error]

theorem runContains_shape :
    ∀ (l1 l2 : List (String × String)) (st1 st2 : SqlState),
    l1.map (fun e => e.1) = l2.map (fun e => e.1) →
    st1.index = st2.index → st1.clauses = st2.clauses →
    st1.parameters.length = st2.parameters.length →
    (List.foldl containsStep st1 l1).index = (List.foldl containsStep st2 l2).index ∧
    (List.foldl containsStep st1 l1).clauses = (List.foldl containsStep st2 l2).clauses ∧
    (List.foldl containsStep st1 l1).parameters.length =
      (List.foldl containsStep st2 l2).parameters.length := by
  intro l1
  induction l1 with
  | nil =>
    intro l2 st1 st2 hmap hidx hcl hpl
    cases l2 with
    | nil => exact ⟨hidx, hcl, hpl⟩
    | cons e2 rest2 => simp at hmap
  | cons e1 rest1 ih =>
    intro l2 st1 st2 hmap hidx hcl hpl
    cases l2 with
    | nil => simp at hmap
    | cons e2 rest2 =>
      simp only [List.map_cons, List.cons.injEq] at hmap
      refine ih rest2 _ _ hmap.2 ?_ ?_ ?_ <;>
        simp [containsStep, hidx, hcl, hpl, hmap.1]

theorem existsStep_shape (schema : Schema) (st1 st2 : SqlState) (e : String × Bool)
    (hidx : st1.index = st2.index) (hcl : st1.clauses = st2.clauses)
    (hpl : st1.parameters.length = st2.parameters.length) :
    (∃ er, existsStep schema st1 e = .error er ∧ existsStep schema st2 e = .error er) ∨
    (∃ r1 r2, existsStep schema st1 e = .ok r1 ∧ existsStep schema st2 e = .ok r2 ∧
      r1.index = r2.index ∧ r1.clauses = r2.clauses ∧
      r1.parameters.length = r2.parameters.length) := by
  unfold existsStep
  cases hl : schemaLookup schema e.1 with
  | none => exact Or.inl ⟨_, rfl, rfl⟩
  | some isArr =>
    cases isArr with
    | true => exact Or.inr ⟨_, _, rfl, rfl, by simp [hidx], by simp [hcl], by simp [hpl]⟩
    | false => exact Or.inr ⟨_, _, rfl, rfl, by simp [hidx], by simp [hcl], by simp [hpl]⟩

theorem runExists_shape (schema : Schema) :
    ∀ (l : List (String × Bool)) (st1 st2 : SqlState),
    st1.index = st2.index → st1.clauses = st2.clauses →
    st1.parameters.length = st2.parameters.length →
    (∃ er, List.foldlM (existsStep schema) st1 l = .error er ∧
      List.foldlM (existsStep schema) st2 l = .error er) ∨
    (∃ r1 r2, List.foldlM (existsStep schema) st1 l = .ok r1 ∧
      List.foldlM (existsStep schema) st2 l = .ok r2 ∧
      r1.index = r2.index ∧ r1.clauses = r2.clauses ∧
      r1.parameters.length = r2.parameters.length) := by
  intro l
  induction l with
  | nil =>
    intro st1 st2 hidx hcl hpl
    exact Or.inr ⟨st1, st2, rfl, rfl, hidx, hcl, hpl⟩
  | cons e rest ih =>
    intro st1 st2 hidx hcl hpl
    rcases existsStep_shape schema st1 st2 e hidx hcl hpl with
      ⟨er, h1, h2⟩ | ⟨r1, r2, h1, h2, hidx2, hcl2, hpl2⟩
    · refine Or.inl ⟨er, ?_, ?_⟩ <;> simp [List.foldlM_cons, h1, h2, except_bind_ok, except_bind_error]
    · rcases ih r1 r2 hidx2 hcl2 hpl2 with
        ⟨er, h3, h4⟩ | ⟨r3, r4, h3, h4, hidx3, hcl3, hpl3⟩
      · refine Or.inl ⟨er, ?_, ?_⟩ <;> simp [List.foldlM_cons, h1, h2, h3, h4, except_bind_ok, except_bind_error]
      · refine Or.inr ⟨r3, r4, ?_, ?_, hidx3, hcl3, hpl3⟩ <;>
          simp [List.foldlM_cons, h1, h2, h3, h4, except_bind_ok, except_bind_error]

theorem rangeStep_shape (schema : Schema) (st1 st2 : SqlState)
    (e1 e2 : String × (Option JSScalar × Option JSScalar))
    (hf : e1.1 = e2.1) (hlo : e1.2.1.isSome = e2.2.1.isSome)
    (hhi : e1.2.2.isSome = e2.2.2.isSome)
    (hidx : st1.index = st2.index) (hcl : st1.clauses = st2.clauses)
    (hpl : st1.parameters.length = st2.parameters.length) :
    (∃ er, rangeStep schema st1 e1 = .error er ∧ rangeStep schema st2 e2 = .error er) ∨
    (∃ r1 r2, rangeStep schema st1 e1 = .ok r1 ∧ rangeStep schema st2 e2 = .ok r2 ∧
      r1.index = r2.index ∧ r1.clauses = r2.clauses ∧
      r1.parameters.length = r2.parameters.length) := by
  unfold rangeStep
  rw [hf]
  cases hl : schemaLookup schema e2.1 with
  | none => exact Or.inl ⟨_, rfl, rfl⟩
  | some isArr =>
    refine Or.inr ⟨_, _, rfl, rfl, ?_⟩
    cases h1 : e1.2.1 with
    | none =>
      cases h2 : e2.2.1 with
      | none =>
        cases h3 : e1.2.2 with
        | none =>
          cases h4 : e2.2.2 with
          | none => exact ⟨hidx, by simp [hcl, hf], hpl⟩
          | some v4 => rw [h3, h4] at hhi; simp at hhi
        | some v3 =>
          cases h4 : e2.2.2 with
          | none => rw [h3, h4] at hhi; simp at hhi
          | some v4 =>
            exact ⟨by simp [hidx], by simp [hcl, hidx, hf], by simp [hpl]⟩
      | some v2 => rw [h1, h2] at hlo; simp at hlo
    | some v1 =>
      cases h2 : e2.2.1 with
      | none => rw [h1, h2] at hlo; simp at hlo
      | some v2 =>
        cases h3 : e1.2.2 with
        | none =>
          cases h4 : e2.2.2 with
          | none => exact ⟨by simp [hidx], by simp [hcl, hidx, hf], by simp [hpl]⟩
          | some v4 => rw [h3, h4] at hhi; simp at hhi
        | some v3 =>
          cases h4 : e2.2.2 with
          | none => rw [h3, h4] at hhi; simp at hhi
          | some v4 =>
            exact ⟨by simp [hidx], by simp [hcl, hidx, hf], by simp [hpl]⟩

theorem runRange_shape (schema : Schema) :
    ∀ (l1 l2 : List (String × (Option JSScalar × Option JSScalar))) (st1 st2 : SqlState),
    l1.map (fun e => (e.1, e.2.1.isSome, e.2.2.isSome)) =
      l2.map (fun e => (e.1, e.2.1.isSome, e.2.2.isSome)) →
    st1.index = st2.index → st1.clauses = st2.clauses →
    st1.parameters.length = st2.parameters.length →
    (∃ er, List.foldlM (rangeStep schema) st1 l1 = .error er ∧
      List.foldlM (rangeStep schema) st2 l2 = .error er) ∨
    (∃ r1 r2, List.foldlM (rangeStep schema) st1 l1 = .ok r1 ∧
      List.foldlM (rangeStep schema) st2 l2 = .ok r2 ∧
      r1.index = r2.index ∧ r1.clauses = r2.clauses ∧
      r1.parameters.length = r2.parameters.length) := by
  intro l1
  induction l1 with
  | nil =>
    intro l2 st1 st2 hmap hidx hcl hpl
    cases l2 with
    | nil => exact Or.inr ⟨st1, st2, rfl, rfl, hidx, hcl, hpl⟩
    | cons e2 rest2 => simp at hmap
  | cons e1 rest1 ih =>
    intro l2 st1 st2 hmap hidx hcl hpl
    cases l2 with
    | nil => simp at hmap
    | cons e2 rest2 =>
      simp only [List.map_cons, List.cons.injEq, Prod.mk.injEq] at hmap
      rcases rangeStep_shape schema st1 st2 e1 e2 hmap.1.1 hmap.1.2.1 hmap.1.2.2
          hidx hcl hpl with
        ⟨er, h1, h2⟩ | ⟨r1, r2, h1, h2, hidx2, hcl2, hpl2⟩
      · refine Or.inl ⟨er, ?_, ?_⟩ <;> simp [List.foldlM_cons, h1, h2, except_bind_ok, except_bind_error]
      · rcases ih rest2 r1 r2 hmap.2 hidx2 hcl2 hpl2 with
          ⟨er, h3, h4⟩ | ⟨r3, r4, h3, h4, hidx3, hcl3, hpl3⟩
        · refine Or.inl ⟨er, ?_, ?_⟩ <;> simp [List.foldlM_cons, h1, h2, h3, h4, except_bind_ok, except_bind_error]
        · refine Or.inr ⟨r3, r4, ?_, ?_, hidx3, hcl3, hpl3⟩ <;>
            simp [List.foldlM_cons, h1, h2, h3, h4, except_bind_ok, except_bind_error]

theorem applyIdsClause_shape (pk : String) (ids1 ids2 : Option (List JSScalar))
    (h : ids1.map List.length = ids2.map List.length) :
    (applyIdsClause pk ids1 ⟨0, [], []⟩).index = (applyIdsClause pk ids2 ⟨0, [], []⟩).index ∧
    (applyIdsClause pk ids1 ⟨0, [], []⟩).clauses =
      (applyIdsClause pk ids2 ⟨0, [], []⟩).clauses ∧
    (applyIdsClause pk ids1 ⟨0, [], []⟩).parameters.length =
      (applyIdsClause pk ids2 ⟨0, [], []⟩).parameters.length := by
  cases ids1 with
  | none =>
    cases ids2 with
    | none => exact ⟨rfl, rfl, rfl⟩
    | some l2 => simp at h
  | some l1 =>
    cases ids2 with
    | none => simp at h
    | some l2 =>
      have hlen : l1.length = l2.length := by simpa using h
      simp [applyIdsClause, counterPlaceholders_eq, hlen]

theorem except_map_ok {ε α β : Type} (f : α → β) (a : α) :
    (Except.ok a : Except ε α).map f = Except.ok (f a) := rfl

theorem except_map_error {ε α β : Type} (f : α → β) (e : ε) :
    (Except.error e : Except ε α).map f = Except.error e := rfl

theorem string_append_empty (s : String) : s ++ "" = s := by
  cases s with
  | mk l =>
    show String.mk (l ++ []) = String.mk l
    rw [List.append_nil]

theorem sliceText_zero : sliceText 0 0 = "" := rfl

/-- C7 counterexample: the limit pagination value is interpolated
directly into the statement text: find with limit 10 and find with
limit 20 produce different statement texts with identical (empty)
parameter lists, and the text contains the literal `limit 10`. -/
theorem C7_limit_value_interpolated :
    buildFind [("a", false)] "users" "id" ⟨none, [], [], [], [], [], [], 10, 0⟩ =
      .ok ("select * from \"users\"   limit 10 ", []) ∧
    buildFind [("a", false)] "users" "id" ⟨none, [], [], [], [], [], [], 20, 0⟩ =
      .ok ("select * from \"users\"   limit 20 ", []) ∧
    ("select * from \"users\"   limit 10 " : String) ≠
      "select * from \"users\"   limit 20 " ∧
    strContains "limit 10" "select * from \"users\"   limit 10 " = true :=
  ⟨rfl, rfl, by decide, by decide⟩

theorem createParamsList_length (pk : String) (hasPK : Bool) (ordered : List String)
    (rs : List RecObj) :
    (createParamsList pk hasPK ordered rs).length =
      rs.length * ((if hasPK then 1 else 0) + ordered.length) := by
  induction rs with
  | nil => simp [createParamsList]
  | cons r rest ih =>
    have hstep : createParamsList pk hasPK ordered (r :: rest) =
        ((if hasPK then [recGetD r pk] else []) ++ ordered.map (recGetD r)) ++
          createParamsList pk hasPK ordered rest := by
      simp [createParamsList, List.flatMap_cons]
    rw [hstep]
    simp only [List.length_append, List.length_map, ih, List.length_cons]
    cases hasPK <;> simp <;> ring

theorem runReplace_shape :
    ∀ (l1 l2 : List (String × JSVal)) (st1 st2 : SqlState),
    l1.map (fun e => e.1) = l2.map (fun e => e.1) →
    st1.index = st2.index → st1.clauses = st2.clauses →
    st1.parameters.length = st2.parameters.length →
    (List.foldl replaceStep st1 l1).index = (List.foldl replaceStep st2 l2).index ∧
    (List.foldl replaceStep st1 l1).clauses = (List.foldl replaceStep st2 l2).clauses ∧
    (List.foldl replaceStep st1 l1).parameters.length =
      (List.foldl replaceStep st2 l2).parameters.length := by
  intro l1
  induction l1 with
  | nil =>
    intro l2 st1 st2 hmap hidx hcl hpl
    cases l2 with
    | nil => exact ⟨hidx, hcl, hpl⟩
    | cons e2 rest2 => simp at hmap
  | cons e1 rest1 ih =>
    intro l2 st1 st2 hmap hidx hcl hpl
    cases l2 with
    | nil => simp at hmap
    | cons e2 rest2 =>
      simp only [List.map_cons, List.cons.injEq] at hmap
      refine ih rest2 _ _ hmap.2 ?_ ?_ ?_ <;>
        simp [replaceStep, hidx, hcl, hpl, hmap.1]

theorem runPush_shape :
    ∀ (l1 l2 : List (String × JSVal)) (st1 st2 : SqlState),
    l1.map (fun e => (e.1, valShape e.2)) = l2.map (fun e => (e.1, valShape e.2)) →
    st1.index = st2.index → st1.clauses = st2.clauses →
    st1.parameters.length = st2.parameters.length →
    (List.foldl pushStep st1 l1).index = (List.foldl pushStep st2 l2).index ∧
    (List.foldl pushStep st1 l1).clauses = (List.foldl pushStep st2 l2).clauses ∧
    (List.foldl pushStep st1 l1).parameters.length =
      (List.foldl pushStep st2 l2).parameters.length := by
  intro l1
  induction l1 with
  | nil =>
    intro l2 st1 st2 hmap hidx hcl hpl
    cases l2 with
    | nil => exact ⟨hidx, hcl, hpl⟩
    | cons e2 rest2 => simp at hmap
  | cons e1 rest1 ih =>
    intro l2 st1 st2 hmap hidx hcl hpl
    cases l2 with
    | nil => simp at hmap
    | cons e2 rest2 =>
      simp only [List.map_cons, List.cons.injEq, Prod.mk.injEq] at hmap
      have hstep : (pushStep st1 e1).index = (pushStep st2 e2).index ∧
          (pushStep st1 e1).clauses = (pushStep st2 e2).clauses ∧
          (pushStep st1 e1).parameters.length = (pushStep st2 e2).parameters.length := by
        have hsv := hmap.1.2
        cases hv1 : e1.2 with
        | arr es1 =>
          cases hv2 : e2.2 with
          | arr es2 => simp [pushStep, hv1, hv2, hidx, hcl, hpl, hmap.1.1]
          | scalar s2 => rw [hv1, hv2] at hsv; simp [valShape] at hsv
        | scalar s1 =>
          cases hv2 : e2.2 with
          | arr es2 => rw [hv1, hv2] at hsv; simp [valShape] at hsv
          | scalar s2 => simp [pushStep, hv1, hv2, hidx, hcl, hpl, hmap.1.1]
      exact ih rest2 _ _ hmap.2 hstep.1 hstep.2.1 hstep.2.2

theorem runPull_shape :
    ∀ (l1 l2 : List (String × JSVal)) (st1 st2 : SqlState),
    l1.map (fun e => (e.1, valShape e.2)) = l2.map (fun e => (e.1, valShape e.2)) →
    st1.index = st2.index → st1.clauses = st2.clauses →
    st1.parameters.length = st2.parameters.length →
    (List.foldl pullStep st1 l1).index = (List.foldl pullStep st2 l2).index ∧
    (List.foldl pullStep st1 l1).clauses = (List.foldl pullStep st2 l2).clauses ∧
    (List.foldl pullStep st1 l1).parameters.length =
      (List.foldl pullStep st2 l2).parameters.length := by
  intro l1
  induction l1 with
  | nil =>
    intro l2 st1 st2 hmap hidx hcl hpl
    cases l2 with
    | nil => exact ⟨hidx, hcl, hpl⟩
    | cons e2 rest2 => simp at hmap
  | cons e1 rest1 ih =>
    intro l2 st1 st2 hmap hidx hcl hpl
    cases l2 with
    | nil => simp at hmap
    | cons e2 rest2 =>
      simp only [List.map_cons, List.cons.injEq, Prod.mk.injEq] at hmap
      have hstep : (pullStep st1 e1).index = (pullStep st2 e2).index ∧
          (pullStep st1 e1).clauses = (pullStep st2 e2).clauses ∧
          (pullStep st1 e1).parameters.length = (pullStep st2 e2).parameters.length := by
        have hsv := hmap.1.2
        cases hv1 : e1.2 with
        | arr es1 =>
          cases hv2 : e2.2 with
          | arr es2 =>
            have hlen : es1.length = es2.length := by
              rw [hv1, hv2] at hsv
              exact map_eq_length isBufferS es1 es2 (by simpa [valShape] using hsv)
            simp [pullStep, hv1, hv2, mapValueList_eq, hidx, hcl, hpl, hmap.1.1, hlen]
          | scalar s2 => rw [hv1, hv2] at hsv; simp [valShape] at hsv
        | scalar s1 =>
          cases hv2 : e2.2 with
          | arr es2 => rw [hv1, hv2] at hsv; simp [valShape] at hsv
          | scalar s2 => simp [pullStep, hv1, hv2, hidx, hcl, hpl, hmap.1.1]
      exact ih rest2 _ _ hmap.2 hstep.1 hstep.2.1 hstep.2.2

theorem updateStatement_shape (table pk : String) (u1 u2 : UpdateSpec)
    (hrep : u1.replaceE.map (fun e => e.1) = u2.replaceE.map (fun e => e.1))
    (hpush : u1.pushE.map (fun e => (e.1, valShape e.2)) =
      u2.pushE.map (fun e => (e.1, valShape e.2)))
    (hpull : u1.pullE.map (fun e => (e.1, valShape e.2)) =
      u2.pullE.map (fun e => (e.1, valShape e.2))) :
    (updateStatement table pk u1).1 = (updateStatement table pk u2).1 ∧
    (updateStatement table pk u1).2.length = (updateStatement table pk u2).2.length := by
  have h1 := runReplace_shape u1.replaceE u2.replaceE ⟨0, [], []⟩ ⟨0, [], []⟩ hrep rfl rfl rfl
  have h2 := runPush_shape u1.pushE u2.pushE _ _ hpush h1.1 h1.2.1 h1.2.2
  have h3 := runPull_shape u1.pullE u2.pullE _ _ hpull h2.1 h2.2.1 h2.2.2
  unfold updateStatement
  exact ⟨by simp [h3.1, h3.2.1], by simp [h3.2.2]⟩

theorem deleteAction_shape (table pk : String) (l1 l2 : List JSScalar)
    (h : l1.length = l2.length) :
    (deleteAction table pk (some l1) = .noop ∧ deleteAction table pk (some l2) = .noop) ∨
    (∃ s p1 p2, deleteAction table pk (some l1) = .exec s p1 ∧
      deleteAction table pk (some l2) = .exec s p2 ∧ p1.length = p2.length) := by
  cases l1 with
  | nil =>
    cases l2 with
    | nil => exact Or.inl ⟨by simp [deleteAction], by simp [deleteAction]⟩
    | cons b bs => simp at h
  | cons a as =>
    cases l2 with
    | nil => simp at h
    | cons b bs =>
      refine Or.inr ⟨"delete from " ++ qid table ++ " where " ++ qid pk ++ " in (" ++
          String.intercalate ", " (counterPlaceholders (a :: as).length 0).1 ++ ")",
        (a :: as).map .scalar, (b :: bs).map .scalar, ?_, ?_, ?_⟩
      · simp [deleteAction, String.append_assoc]
      · rw [show (a :: as).length = (b :: bs).length from h]
        simp [deleteAction, String.append_assoc]
      · simpa using h

theorem buildFindCount_shape (schema : Schema) (table pk : String)
    (ids1 ids2 : Option (List JSScalar))
    (m1 m2 : List (String × JSVal))
    (c1 c2 : List (String × String))
    (ex : List (String × Bool))
    (rg1 rg2 : List (String × (Option JSScalar × Option JSScalar)))
    (srt proj : List (String × Bool)) (limit offset : Nat)
    (hids : ids1.map List.length = ids2.map List.length)
    (hm : m1.map (fun e => (e.1, valShape e.2)) = m2.map (fun e => (e.1, valShape e.2)))
    (hc : c1.map (fun e => e.1) = c2.map (fun e => e.1))
    (hrg : rg1.map (fun e => (e.1, e.2.1.isSome, e.2.2.isSome)) =
      rg2.map (fun e => (e.1, e.2.1.isSome, e.2.2.isSome))) :
    (buildFind schema table pk ⟨ids1, m1, c1, ex, rg1, srt, proj, limit, offset⟩).map
        Prod.fst =
      (buildFind schema table pk ⟨ids2, m2, c2, ex, rg2, srt, proj, limit, offset⟩).map
        Prod.fst ∧
    (buildFind schema table pk ⟨ids1, m1, c1, ex, rg1, srt, proj, limit, offset⟩).map
        (fun t => t.2.length) =
      (buildFind schema table pk ⟨ids2, m2, c2, ex, rg2, srt, proj, limit, offset⟩).map
        (fun t => t.2.length) ∧
    (buildCount schema table pk ⟨ids1, m1, c1, ex, rg1, srt, proj, limit, offset⟩).map
        Prod.fst =
      (buildCount schema table pk ⟨ids2, m2, c2, ex, rg2, srt, proj, limit, offset⟩).map
        Prod.fst ∧
    (buildCount schema table pk ⟨ids1, m1, c1, ex, rg1, srt, proj, limit, offset⟩).map
        (fun t => t.2.length) =
      (buildCount schema table pk ⟨ids2, m2, c2, ex, rg2, srt, proj, limit, offset⟩).map
        (fun t => t.2.length) := by
  have hids2 := applyIdsClause_shape pk ids1 ids2 hids
  rcases runMatch_shape schema m1 m2 _ _ hm hids2.1 hids2.2.1 hids2.2.2 with
    ⟨er, hA1, hA2⟩ | ⟨sa, sb, hA1, hA2, hB1, hB2, hB3⟩
  · refine ⟨?_, ?_, ?_, ?_⟩ <;>
      simp [buildFind, buildCount, hA1, hA2,
        except_bind_error, except_bind_ok, except_map_ok, except_map_error]
  · have hcont := runContains_shape c1 c2 sa sb hc hB1 hB2 hB3
    rcases runExists_shape schema ex _ _ hcont.1 hcont.2.1 hcont.2.2 with
      ⟨er, hE1, hE2⟩ | ⟨sc, sd, hE1, hE2, hF1, hF2, hF3⟩
    · refine ⟨?_, ?_, ?_, ?_⟩ <;>
        simp [buildFind, buildCount, hA1, hA2, hE1, hE2,
          except_bind_error, except_bind_ok, except_map_ok, except_map_error]
    · rcases runRange_shape schema rg1 rg2 sc sd hrg hF1 hF2 hF3 with
        ⟨er, hR1, hR2⟩ | ⟨se, sf, hR1, hR2, hG1, hG2, hG3⟩
      · refine ⟨?_, ?_, ?_, ?_⟩ <;>
          simp [buildFind, buildCount, hA1, hA2, hE1, hE2, hR1, hR2,
            except_bind_error, except_bind_ok, except_map_ok, except_map_error]
      · cases hS : List.mapM.loop (sortFragment schema) srt [] with
        | error e =>
          refine ⟨?_, ?_, ?_, ?_⟩ <;>
            simp [buildFind, buildCount, hA1, hA2, hE1, hE2, hR1, hR2, hS, hG1, hG2, hG3,
              except_bind_error, except_bind_ok, except_map_ok, except_map_error]
        | ok frags =>
          refine ⟨?_, ?_, ?_, ?_⟩ <;>
            simp [buildFind, buildCount, hA1, hA2, hE1, hE2, hR1, hR2, hS, hG1, hG2, hG3,
              except_bind_error, except_bind_ok, except_map_ok, except_map_error]

theorem buildFind_slice_verbatim (schema : Schema) (table pk : String)
    (ids1 : Option (List JSScalar)) (m1 : List (String × JSVal))
    (c1 : List (String × String)) (ex : List (String × Bool))
    (rg1 : List (String × (Option JSScalar × Option JSScalar)))
    (srt proj : List (String × Bool)) (limit offset : Nat) :
    (buildFind schema table pk ⟨ids1, m1, c1, ex, rg1, srt, proj, limit, offset⟩).map
        Prod.fst =
      (buildFind schema table pk ⟨ids1, m1, c1, ex, rg1, srt, proj, 0, 0⟩).map
        (fun t => t.1 ++ sliceText limit offset) := by
  cases hA : List.foldlM (matchStep schema) (applyIdsClause pk ids1 ⟨0, [], []⟩) m1 with
  | error e =>
    simp [buildFind, hA, except_bind_error, except_bind_ok, except_map_ok, except_map_error]
  | ok stA =>
    cases hB : List.foldlM (existsStep schema) (List.foldl containsStep stA c1) ex with
    | error e =>
      simp [buildFind, hA, hB, except_bind_error, except_bind_ok,
        except_map_ok, except_map_error]
    | ok stB =>
      cases hC : List.foldlM (rangeStep schema) stB rg1 with
      | error e =>
        simp [buildFind, hA, hB, hC, except_bind_error, except_bind_ok,
          except_map_ok, except_map_error]
      | ok stC =>
        cases hD : List.mapM.loop (sortFragment schema) srt [] with
        | error e =>
          simp [buildFind, hA, hB, hC, hD, except_bind_error, except_bind_ok,
            except_map_ok, except_map_error]
        | ok frags =>
          simp [buildFind, hA, hB, hC, hD, except_bind_error, except_bind_ok,
            except_map_ok, except_map_error, sliceText_zero, string_append_empty]

/-- C7 (amended): for every generated statement — the find select, its
paired count, create, update and delete — all non-identifier values
are bound exclusively through positional placeholders, passed in the
separate ordered parameter list and never interpolated into the
statement text, with the single exception the counterexample exhibits:
the limit/offset pagination values, which are interpolated verbatim
into the find statement text.  The only other directly interpolated
text is the double-quoted, schema-validated identifiers; in
particular, the contains pattern value is never embedded in the
statement text.  Formally, values-never-in-text is stated as
noninterference: each statement's text (and its parameter count) is
invariant under every change of the bound values — ids, match values,
contains patterns, range bounds, create field values, update
replace/push/pull values and the update id — that preserves their
shapes (fields, array-ness, lengths, buffer-ness, null-pattern of
range bounds, id count, record count, key-presence); while the find
text depends on limit/offset exactly through the verbatim slice
appended to it. -/
theorem C7_values_never_in_statement_text :
    (∀ (schema : Schema) (table pk : String) (ids1 ids2 : Option (List JSScalar))
      (m1 m2 : List (String × JSVal)) (c1 c2 : List (String × String))
      (ex : List (String × Bool))
      (rg1 rg2 : List (String × (Option JSScalar × Option JSScalar)))
      (srt proj : List (String × Bool)) (limit offset : Nat),
      ids1.map List.length = ids2.map List.length →
      m1.map (fun e => (e.1, valShape e.2)) = m2.map (fun e => (e.1, valShape e.2)) →
      c1.map (fun e => e.1) = c2.map (fun e => e.1) →
      rg1.map (fun e => (e.1, e.2.1.isSome, e.2.2.isSome)) =
        rg2.map (fun e => (e.1, e.2.1.isSome, e.2.2.isSome)) →
      (buildFind schema table pk ⟨ids1, m1, c1, ex, rg1, srt, proj, limit, offset⟩).map
          Prod.fst =
        (buildFind schema table pk ⟨ids2, m2, c2, ex, rg2, srt, proj, limit, offset⟩).map
          Prod.fst ∧
      (buildFind schema table pk ⟨ids1, m1, c1, ex, rg1, srt, proj, limit, offset⟩).map
          (fun t => t.2.length) =
        (buildFind schema table pk ⟨ids2, m2, c2, ex, rg2, srt, proj, limit, offset⟩).map
          (fun t => t.2.length) ∧
      (buildCount schema table pk ⟨ids1, m1, c1, ex, rg1, srt, proj, limit, offset⟩).map
          Prod.fst =
        (buildCount schema table pk ⟨ids2, m2, c2, ex, rg2, srt, proj, limit, offset⟩).map
          Prod.fst ∧
      (buildCount schema table pk ⟨ids1, m1, c1, ex, rg1, srt, proj, limit, offset⟩).map
          (fun t => t.2.length) =
        (buildCount schema table pk ⟨ids2, m2, c2, ex, rg2, srt, proj, limit, offset⟩).map
          (fun t => t.2.length) ∧
      (buildFind schema table pk ⟨ids1, m1, c1, ex, rg1, srt, proj, limit, offset⟩).map
          Prod.fst =
        (buildFind schema table pk ⟨ids1, m1, c1, ex, rg1, srt, proj, 0, 0⟩).map
          (fun t => t.1 ++ sliceText limit offset)) ∧
    (∀ (table pk : String) (fieldNames : List String) (rs1 rs2 : List RecObj),
      rs1.length = rs2.length →
      rs1.all (fun r => keyIn pk r) = rs2.all (fun r => keyIn pk r) →
      (createStatement table pk fieldNames rs1).1 =
        (createStatement table pk fieldNames rs2).1 ∧
      (createStatement table pk fieldNames rs1).2.length =
        (createStatement table pk fieldNames rs2).2.length) ∧
    (∀ (table pk : String) (u1 u2 : UpdateSpec),
      u1.replaceE.map (fun e => e.1) = u2.replaceE.map (fun e => e.1) →
      u1.pushE.map (fun e => (e.1, valShape e.2)) =
        u2.pushE.map (fun e => (e.1, valShape e.2)) →
      u1.pullE.map (fun e => (e.1, valShape e.2)) =
        u2.pullE.map (fun e => (e.1, valShape e.2)) →
      (updateStatement table pk u1).1 = (updateStatement table pk u2).1 ∧
      (updateStatement table pk u1).2.length = (updateStatement table pk u2).2.length) ∧
    (∀ (table pk : String) (l1 l2 : List JSScalar), l1.length = l2.length →
      (deleteAction table pk (some l1) = .noop ∧
        deleteAction table pk (some l2) = .noop) ∨
      (∃ s p1 p2, deleteAction table pk (some l1) = .exec s p1 ∧
        deleteAction table pk (some l2) = .exec s p2 ∧ p1.length = p2.length)) := by
  refine ⟨?_, ?_, ?_, ?_⟩
  · intro schema table pk ids1 ids2 m1 m2 c1 c2 ex rg1 rg2 srt proj limit offset
      hids hm hc hrg
    have hfc := buildFindCount_shape schema table pk ids1 ids2 m1 m2 c1 c2 ex rg1 rg2
      srt proj limit offset hids hm hc hrg
    exact ⟨hfc.1, hfc.2.1, hfc.2.2.1, hfc.2.2.2,
      buildFind_slice_verbatim schema table pk ids1 m1 c1 ex rg1 srt proj limit offset⟩
  · intro table pk fieldNames rs1 rs2 hlen hall
    constructor
    · simp [createStatement_eq, hall, hlen]
    · simp [createStatement_eq, createParamsList_length, hall, hlen]
  · intro table pk u1 u2 hrep hpush hpull
    exact updateStatement_shape table pk u1 u2 hrep hpush hpull
  · intro table pk l1 l2 hlen
    exact deleteAction_shape table pk l1 l2 hlen

theorem C7_values_never_in_statement_text_witness :
    ((buildFind [("a", false), ("c", false)] "t" "id"
        ⟨some [.str "i"], [("a", JSVal.scalar (.num 1))], [("c", "x")], [],
          [("a", (some (JSScalar.num 0), none))], [], [], 5, 0⟩).map Prod.fst =
      (buildFind [("a", false), ("c", false)] "t" "id"
        ⟨some [.str "j"], [("a", JSVal.scalar (.num 99))], [("c", "zzz")], [],
          [("a", (some (JSScalar.num 7), none))], [], [], 5, 0⟩).map Prod.fst) ∧
    ((createStatement "t" "id" ["a"]
        [[("id", JSVal.scalar (.str "k1")), ("a", JSVal.scalar (.num 1))]]).1 =
      (createStatement "t" "id" ["a"]
        [[("id", JSVal.scalar (.str "k2")), ("a", JSVal.scalar (.num 5))]]).1) ∧
    ((updateStatement "t" "id" ⟨.str "k1", [("a", JSVal.scalar (.num 1))],
        [("tags", JSVal.scalar (.num 2))], [("tags", JSVal.arr [.num 3])]⟩).1 =
      (updateStatement "t" "id" ⟨.str "k2", [("a", JSVal.scalar (.num 7))],
        [("tags", JSVal.scalar (.num 8))], [("tags", JSVal.arr [.num 9])]⟩).1) ∧
    ((deleteAction "t" "id" (some [.str "x"]) = .noop ∧
       deleteAction "t" "id" (some [.str "y"]) = .noop) ∨
     (∃ s p1 p2, deleteAction "t" "id" (some [.str "x"]) = .exec s p1 ∧
       deleteAction "t" "id" (some [.str "y"]) = .exec s p2 ∧
       p1.length = p2.length)) := by
  have h := C7_values_never_in_statement_text
  refine ⟨?_, ?_, ?_, ?_⟩
  · exact (h.1 [("a", false), ("c", false)] "t" "id" (some [.str "i"])
      (some [.str "j"]) [("a", JSVal.scalar (.num 1))] [("a", JSVal.scalar (.num 99))]
      [("c", "x")] [("c", "zzz")] []
      [("a", (some (JSScalar.num 0), none))] [("a", (some (JSScalar.num 7), none))]
      [] [] 5 0 rfl rfl rfl rfl).1
  · exact (h.2.1 "t" "id" ["a"]
      [[("id", JSVal.scalar (.str "k1")), ("a", JSVal.scalar (.num 1))]]
      [[("id", JSVal.scalar (.str "k2")), ("a", JSVal.scalar (.num 5))]] rfl rfl).1
  · exact (h.2.2.1 "t" "id"
      ⟨.str "k1", [("a", JSVal.scalar (.num 1))], [("tags", JSVal.scalar (.num 2))],
        [("tags", JSVal.arr [.num 3])]⟩
      ⟨.str "k2", [("a", JSVal.scalar (.num 7))], [("tags", JSVal.scalar (.num 8))],
        [("tags", JSVal.arr [.num 9])]⟩ rfl rfl rfl).1
  · exact h.2.2.2 "t" "id" [.str "x"] [.str "y"] rfl
